import Mathlib

/-!
Verification development for the Gmail MCP server's MIME utilities
(`src/utils.ts`, modelled here from `part_003`) and the reply-threading
logic of `GmailClient.replyToEmail` (`src/gmail-client.ts`).

JavaScript strings are modelled as Lean `String`s (sequences of Unicode
scalar values), byte buffers as `List Nat` with every entry below 256.
`Buffer.from(s).toString('base64')`, `Buffer.from(d, 'base64url')` and
`Buffer.toString('utf-8')` are modelled by the executable codecs below,
which follow Node's lenient decoders: the base64 reader accepts both the
standard and the URL-safe alphabet and skips padding, the UTF-8 reader
substitutes U+FFFD for malformed sequences.
-/

/-! ## UTF-8 codec (models Buffer.from(string) / Buffer.toString('utf-8')) -/

/-- Bytes of the UTF-8 encoding of one scalar value. -/
def utf8EncodeChar (c : Char) : List Nat :=
  if c.toNat < 0x80 then [c.toNat]
  else if c.toNat < 0x800 then [0xC0 + c.toNat / 64, 0x80 + c.toNat % 64]
  else if c.toNat < 0x10000 then
    [0xE0 + c.toNat / 4096, 0x80 + c.toNat / 64 % 64, 0x80 + c.toNat % 64]
  else
    [0xF0 + c.toNat / 262144, 0x80 + c.toNat / 4096 % 64, 0x80 + c.toNat / 64 % 64,
     0x80 + c.toNat % 64]

/-- UTF-8 bytes of a string, as `Buffer.from(s)` produces them. -/
def utf8Encode (s : String) : List Nat := s.data.flatMap utf8EncodeChar

/-- Whether a byte is a UTF-8 continuation byte (10xxxxxx). -/
def isCont (b : Nat) : Prop := 0x80 ≤ b ∧ b < 0xC0

instance (b : Nat) : Decidable (isCont b) := by unfold isCont; infer_instance

/-- Replacement character U+FFFD, emitted by Node's UTF-8 decoder on
malformed input. -/
def repl : Char := Char.ofNat 0xFFFD

/-- Fueled UTF-8 decoder core. One unit of fuel is spent per decoded
character; each character consumes at least one byte, so fuel equal to the
byte count never runs out. Malformed sequences yield U+FFFD. -/
def utf8DecodeAux : Nat → List Nat → List Char
  | 0, _ => []
  | _ + 1, [] => []
  | fuel + 1, b :: rest =>
    if b < 0x80 then Char.ofNat b :: utf8DecodeAux fuel rest
    else if b < 0xC2 then repl :: utf8DecodeAux fuel rest
    else if b < 0xE0 then
      match rest with
      | b1 :: rest1 =>
        if isCont b1 then
          Char.ofNat ((b - 0xC0) * 64 + (b1 - 0x80)) :: utf8DecodeAux fuel rest1
        else repl :: utf8DecodeAux fuel rest
      | [] => [repl]
    else if b < 0xF0 then
      match rest with
      | b1 :: b2 :: rest2 =>
        if isCont b1 ∧ isCont b2 ∧ (b = 0xE0 → 0xA0 ≤ b1) ∧ (b = 0xED → b1 < 0xA0) then
          Char.ofNat ((b - 0xE0) * 4096 + (b1 - 0x80) * 64 + (b2 - 0x80)) ::
            utf8DecodeAux fuel rest2
        else repl :: utf8DecodeAux fuel rest
      | _ => repl :: utf8DecodeAux fuel rest
    else if b < 0xF5 then
      match rest with
      | b1 :: b2 :: b3 :: rest3 =>
        if isCont b1 ∧ isCont b2 ∧ isCont b3 ∧ (b = 0xF0 → 0x90 ≤ b1) ∧ (b = 0xF4 → b1 < 0x90) then
          Char.ofNat ((b - 0xF0) * 262144 + (b1 - 0x80) * 4096 + (b2 - 0x80) * 64 + (b3 - 0x80)) ::
            utf8DecodeAux fuel rest3
        else repl :: utf8DecodeAux fuel rest
      | _ => repl :: utf8DecodeAux fuel rest
    else repl :: utf8DecodeAux fuel rest

/-- Decode a byte list as UTF-8. -/
def utf8DecodeBytes (bs : List Nat) : List Char := utf8DecodeAux bs.length bs

/-- Decode a byte list as UTF-8 into a string, as `buf.toString('utf-8')`. -/
def utf8DecodeString (bs : List Nat) : String := String.mk (utf8DecodeBytes bs)

/-! ## Base64 codec (models Buffer.toString('base64') / Buffer.from(_, 'base64url')) -/

/-- The standard base64 alphabet, in value order. -/
def b64Table : List Char :=
  ['A', 'B', 'C', 'D', 'E', 'F', 'G', 'H', 'I', 'J', 'K', 'L', 'M',
   'N', 'O', 'P', 'Q', 'R', 'S', 'T', 'U', 'V', 'W', 'X', 'Y', 'Z',
   'a', 'b', 'c', 'd', 'e', 'f', 'g', 'h', 'i', 'j', 'k', 'l', 'm',
   'n', 'o', 'p', 'q', 'r', 's', 't', 'u', 'v', 'w', 'x', 'y', 'z',
   '0', '1', '2', '3', '4', '5', '6', '7', '8', '9', '+', '/']

/-- Character for a six-bit value. -/
def sextetToChar (k : Nat) : Char := b64Table.getD k 'A'

/-- Standard base64 of a byte list, with '=' padding, as
`Buffer.toString('base64')` produces it. -/
def bytesToB64 : List Nat → List Char
  | [] => []
  | [a] => [sextetToChar (a / 4), sextetToChar (a % 4 * 16), '=', '=']
  | [a, b] => [sextetToChar (a / 4), sextetToChar (a % 4 * 16 + b / 16),
               sextetToChar (b % 16 * 4), '=']
  | a :: b :: c :: rest =>
    sextetToChar (a / 4) :: sextetToChar (a % 4 * 16 + b / 16) ::
      sextetToChar (b % 16 * 4 + c / 64) :: sextetToChar (c % 64) :: bytesToB64 rest

/-- Base64 value of a character. Node's decoder accepts both alphabets
('+'/'-' are 62, '/'/'_' are 63); '=' and anything else is skipped. -/
def b64CharVal (c : Char) : Option Nat :=
  if 'A' ≤ c ∧ c ≤ 'Z' then some (c.toNat - 65)
  else if 'a' ≤ c ∧ c ≤ 'z' then some (c.toNat - 97 + 26)
  else if '0' ≤ c ∧ c ≤ '9' then some (c.toNat - 48 + 52)
  else if c = '+' ∨ c = '-' then some 62
  else if c = '/' ∨ c = '_' then some 63
  else none

/-- Pack six-bit groups back into bytes; a trailing group of fewer than four
sextets yields the bytes it fully determines, as Node does. -/
def sextetsToBytes : List Nat → List Nat
  | s1 :: s2 :: s3 :: s4 :: rest =>
    (s1 * 4 + s2 / 16) :: (s2 % 16 * 16 + s3 / 4) :: (s3 % 4 * 64 + s4) :: sextetsToBytes rest
  | [s1, s2, s3] => [s1 * 4 + s2 / 16, s2 % 16 * 16 + s3 / 4]
  | [s1, s2] => [s1 * 4 + s2 / 16]
  | _ => []

/-- Decode a base64 or base64url string to bytes, leniently as
`Buffer.from(d, 'base64url')`. -/
def b64decodeToBytes (s : String) : List Nat := sextetsToBytes (s.data.filterMap b64CharVal)

/-- Standard base64 (with padding) of a string's UTF-8 bytes, as
`Buffer.from(s).toString('base64')`. -/
def b64encodeString (s : String) : String := String.mk (bytesToB64 (utf8Encode s))

/-! ## Small string helpers -/

/-- Apply a character substitution to every character, as a global
single-character regex replace does. -/
def mapString (f : Char → Char) (s : String) : String := String.mk (s.data.map f)

/-- Drop every trailing '=' character, as `.replace(/=+$/, '')`. -/
def stripTrailingEq (s : String) : String :=
  String.mk ((s.data.reverse.dropWhile (fun c => c = '=')).reverse)

/-- The transport-safe substitution: '+' to '-', '/' to '_'. -/
def toUrlSafeChar (c : Char) : Char := if c = '+' then '-' else if c = '/' then '_' else c

/-- Reverse of the transport-safe substitution: '-' to '+', '_' to '/'. -/
def fromUrlSafeChar (c : Char) : Char := if c = '-' then '+' else if c = '_' then '/' else c

/-- Restore the '=' padding a transport-safe string dropped. -/
def restorePad (s : String) : String :=
  s ++ String.mk (List.replicate ((4 - s.length % 4) % 4) '=')

/-- Undo the transport-safe substitution, restore padding and decode:
the inverse direction described by the specification. -/
def decodeTransport (s : String) : String :=
  utf8DecodeString (b64decodeToBytes (restorePad (mapString fromUrlSafeChar s)))

/-- Join lines with CRLF, as `lines.join('\r\n')`. -/
def joinCRLF : List String → String
  | [] => ""
  | [s] => s
  | s :: rest => s ++ "\r\n" ++ joinCRLF rest

/-- Split a character list at every CRLF. -/
def splitCRLFAux : List Char → List Char → List String
  | [], acc => [String.mk acc.reverse]
  | '\r' :: '\n' :: rest, acc => String.mk acc.reverse :: splitCRLFAux rest []
  | c :: rest, acc => splitCRLFAux rest (c :: acc)

/-- The CRLF-separated lines of a string. -/
def splitCRLF (s : String) : List String := splitCRLFAux s.data []

/-- Boolean list-prefix test. -/
def listStarts : List Char → List Char → Bool
  | [], _ => true
  | _ :: _, [] => false
  | a :: as, b :: bs => a == b && listStarts as bs

/-- Whether `s` starts with `p`. -/
def strStarts (p s : String) : Bool := listStarts p.data s.data

/-- First non-empty string of a list, else the empty string. -/
def firstNonempty : List String → String
  | [] => ""
  | s :: rest => if s ≠ "" then s else firstNonempty rest

/-- JavaScript truthiness of an optional string: present and non-empty. -/
def optTruthy : Option String → Bool
  | some s => s != ""
  | none => false

/-- Value of an optional string, empty when absent. -/
def optVal : Option String → String
  | some s => s
  | none => ""

/-! ## Gmail data model and header lookup (Schema$MessagePart, getHeader) -/

/-- One entry of a Gmail header list; both fields are nullable in the API. -/
structure MessagePartHeader where
  name : Option String
  value : Option String
deriving DecidableEq

/-- ASCII lower-casing, standing in for JavaScript's toLowerCase (header
names are ASCII). -/
def lowerAscii (s : String) : String := String.mk (s.data.map Char.toLower)

/-- Case-insensitive first-match header lookup:
`headers?.find((h) => h.name?.toLowerCase() === name.toLowerCase())?.value ?? undefined`. -/
def getHeader (headers : Option (List MessagePartHeader)) (name : String) : Option String :=
  match headers with
  | none => none
  | some hs =>
    match hs.find? (fun h => h.name.map lowerAscii == some (lowerAscii name)) with
    | some h => h.value
    | none => none

/-- Body of a message part: inline data, a size, or an attachment reference. -/
structure PartBody where
  data : Option String
  size : Option Nat
  attachmentId : Option String
deriving DecidableEq

/-- A node of the payload tree. An absent `parts` array behaves exactly like
an empty one in both traversals (the `if (payload.parts)` guard only skips
an empty loop), so children are modelled as a plain list. -/
inductive MessagePart where
  | mk (mimeType : Option String) (filename : Option String) (body : Option PartBody)
       (parts : List MessagePart) : MessagePart

/-- The node's `mimeType` field. -/
def MessagePart.mimeType : MessagePart → Option String
  | .mk m _ _ _ => m

/-- The node's `filename` field. -/
def MessagePart.filename : MessagePart → Option String
  | .mk _ f _ _ => f

/-- The node's `body` field. -/
def MessagePart.body : MessagePart → Option PartBody
  | .mk _ _ b _ => b

/-- The node's child parts. -/
def MessagePart.parts : MessagePart → List MessagePart
  | .mk _ _ _ ps => ps

/-- The node's inline body data, `payload.body?.data`. -/
def MessagePart.bodyData (p : MessagePart) : Option String :=
  p.body.bind PartBody.data

/-- The node's attachment reference, `payload.body?.attachmentId`. -/
def MessagePart.bodyAttachmentId (p : MessagePart) : Option String :=
  p.body.bind PartBody.attachmentId

/-- The node's body size, `payload.body.size || 0`. -/
def MessagePart.bodySize (p : MessagePart) : Nat :=
  match p.body with
  | some b => b.size.getD 0
  | none => 0

/-- Decode inline body data:
`Buffer.from(data, 'base64url').toString('utf-8')`. -/
def decodeBodyData (d : String) : String := utf8DecodeString (b64decodeToBytes d)

/-! ## Payload tree decoder (extractBody, extractAttachments) -/

mutual

/-- Faithful model of `extractBody` (utils, lines 29-48): a node offers its
own decoded data when its mimeType is exactly text/plain (resp. text/html)
and `body?.data` is truthy, then folds over its children with the
first-non-empty-wins merge `text = text || nested.text`. The source's
if/else-if chain is written as two independent conditionals, which agree
because one mimeType cannot equal both strings. -/
def extractBody : MessagePart → String × String
  | .mk m _ b parts =>
    let text :=
      if m = some "text/plain" ∧ optTruthy (b.bind PartBody.data) then
        decodeBodyData (optVal (b.bind PartBody.data))
      else ""
    let html :=
      if m = some "text/html" ∧ optTruthy (b.bind PartBody.data) then
        decodeBodyData (optVal (b.bind PartBody.data))
      else ""
    extractBodyList text html parts

/-- The `for (const part of payload.parts)` loop of `extractBody`. -/
def extractBodyList : String → String → List MessagePart → String × String
  | text, html, [] => (text, html)
  | text, html, p :: ps =>
    let nested := extractBody p
    let text1 := if nested.1 ≠ "" then (if text ≠ "" then text else nested.1) else text
    let html1 := if nested.2 ≠ "" then (if html ≠ "" then html else nested.2) else html
    extractBodyList text1 html1 ps

end

/-- Flattened attachment record (utils, `AttachmentInfo`). -/
structure AttachmentInfo where
  filename : String
  mimeType : String
  size : Nat
  attachmentId : String
deriving DecidableEq

/-- Whether a node contributes an attachment record:
`payload.filename && payload.body?.attachmentId` (both truthy). -/
def isAttachmentPart (p : MessagePart) : Bool :=
  optTruthy p.filename && optTruthy p.bodyAttachmentId

/-- The record `extractAttachments` pushes for a qualifying node. -/
def attachmentInfoOf (p : MessagePart) : AttachmentInfo :=
  { filename := optVal p.filename
    mimeType := if optTruthy p.mimeType then optVal p.mimeType else "application/octet-stream"
    size := p.bodySize
    attachmentId := optVal p.bodyAttachmentId }

mutual

/-- Faithful model of `extractAttachments` (utils, lines 50-69): push the
node's own record when it qualifies, then the children's, in order. -/
def extractAttachments : MessagePart → List AttachmentInfo
  | .mk m f b parts =>
    (if isAttachmentPart (.mk m f b parts) then [attachmentInfoOf (.mk m f b parts)] else [])
      ++ extractAttachmentsList parts

/-- The `for (const part of payload.parts)` loop of `extractAttachments`. -/
def extractAttachmentsList : List MessagePart → List AttachmentInfo
  | [] => []
  | p :: ps => extractAttachments p ++ extractAttachmentsList ps

end

mutual

/-- Left-to-right depth-first pre-order traversal of a payload tree, the
order the specification's merge and collection rules refer to. -/
def preorder : MessagePart → List MessagePart
  | .mk m f b parts => .mk m f b parts :: preorderList parts

/-- Pre-order traversal of a forest, left to right. -/
def preorderList : List MessagePart → List MessagePart
  | [] => []
  | p :: ps => preorder p ++ preorderList ps

end

/-- Specification-side body-candidate test for a given mimeType: the node's
mimeType matches exactly and its inline body data decodes to a non-empty
string. -/
def isBodyCandidate (mt : String) (p : MessagePart) : Bool :=
  p.mimeType == some mt &&
    match p.bodyData with
    | some d => decodeBodyData d != ""
    | none => false

/-- Specification-side selection: the decoded data of the first candidate
for `mt` in the given traversal order, or the empty string. -/
def firstBody (mt : String) (l : List MessagePart) : String :=
  match l.find? (isBodyCandidate mt) with
  | some q => decodeBodyData (optVal q.bodyData)
  | none => ""

/-! ## HTML-to-text reducer (stripHtml) -/

/-- The ECMAScript whitespace set, used both by the regex class \s and by
String.prototype.trim (WhiteSpace plus LineTerminator): tab, LF, VT, FF,
CR, space, NBSP, Ogham space mark, the U+2000..U+200A spaces, LS, PS,
narrow NBSP, medium mathematical space, ideographic space and U+FEFF. -/
def isJsWs (c : Char) : Bool :=
  c = ' ' || c = '\t' || c = '\n' || c = '\r' || c = '\x0b' || c = '\x0c' ||
    c.toNat = 0xA0 || c.toNat = 0x1680 || (0x2000 ≤ c.toNat && c.toNat ≤ 0x200A) ||
    c.toNat = 0x2028 || c.toNat = 0x2029 || c.toNat = 0x202F || c.toNat = 0x205F ||
    c.toNat = 0x3000 || c.toNat = 0xFEFF

/-- Case-insensitive character comparison (ASCII), for the /i regex flag. -/
def ciEq (a b : Char) : Bool := a.toLower == b.toLower

/-- Case-insensitive list-prefix test. -/
def listStartsCi : List Char → List Char → Bool
  | [], _ => true
  | _ :: _, [] => false
  | a :: as, b :: bs => ciEq a b && listStartsCi as bs

/-- Length of a `<br\s*\/?>` match at the head of the list, if any. -/
def brMatchLen (l : List Char) : Option Nat :=
  match l with
  | c0 :: c1 :: c2 :: rest =>
    if c0 = '<' ∧ ciEq c1 'b' = true ∧ ciEq c2 'r' = true then
      let ws := rest.takeWhile isJsWs
      match rest.drop ws.length with
      | '>' :: _ => some (3 + ws.length + 1)
      | '/' :: '>' :: _ => some (3 + ws.length + 2)
      | _ => none
    else none
  | _ => none

/-- Global replace of `<br\s*\/?>` (case-insensitive) by a newline. -/
def replaceBrAux : Nat → List Char → List Char
  | 0, l => l
  | _ + 1, [] => []
  | f + 1, c :: rest =>
    match brMatchLen (c :: rest) with
    | some k => '\n' :: replaceBrAux f (List.drop k (c :: rest))
    | none => c :: replaceBrAux f rest

/-- Stage 1 of `stripHtml`: `.replace(/<br\s*\/?>/gi, '\n')`. -/
def replaceBr (l : List Char) : List Char := replaceBrAux l.length l

/-- Global case-insensitive replace of a literal pattern. -/
def replaceCiSeqAux (pat rep : List Char) : Nat → List Char → List Char
  | 0, l => l
  | _ + 1, [] => []
  | f + 1, c :: rest =>
    if listStartsCi pat (c :: rest) then
      rep ++ replaceCiSeqAux pat rep f (List.drop (pat.length - 1) rest)
    else c :: replaceCiSeqAux pat rep f rest

/-- Global case-insensitive replace of a literal pattern (wrapper). -/
def replaceCiSeq (pat rep l : List Char) : List Char := replaceCiSeqAux pat rep l.length l

/-- Global case-sensitive replace of a literal pattern. -/
def replaceSeqAux (pat rep : List Char) : Nat → List Char → List Char
  | 0, l => l
  | _ + 1, [] => []
  | f + 1, c :: rest =>
    if listStarts pat (c :: rest) then
      rep ++ replaceSeqAux pat rep f (List.drop (pat.length - 1) rest)
    else c :: replaceSeqAux pat rep f rest

/-- Global case-sensitive replace of a literal pattern (wrapper). -/
def replaceSeq (pat rep l : List Char) : List Char := replaceSeqAux pat rep l.length l

/-- Global replace of `<[^>]+>` by nothing: drop any run from '<' through
the next '>' provided at least one character lies between. -/
def removeTagsAux : Nat → List Char → List Char
  | 0, l => l
  | _ + 1, [] => []
  | f + 1, c :: rest =>
    if c = '<' then
      let inside := rest.takeWhile (fun x => x != '>')
      if inside ≠ [] ∧ inside.length < rest.length then
        removeTagsAux f (rest.drop (inside.length + 1))
      else c :: removeTagsAux f rest
    else c :: removeTagsAux f rest

/-- Stage 4 of `stripHtml`: `.replace(/<[^>]+>/g, '')`. -/
def removeTags (l : List Char) : List Char := removeTagsAux l.length l

/-- Whether a character is a hexadecimal digit, `[0-9a-fA-F]`. -/
def isHexDigitChar (c : Char) : Bool :=
  ('0' ≤ c && c ≤ '9') || ('a' ≤ c && c ≤ 'f') || ('A' ≤ c && c ≤ 'F')

/-- Numeric value of a hexadecimal digit. -/
def hexDigitVal (c : Char) : Nat :=
  if '0' ≤ c ∧ c ≤ '9' then c.toNat - 48
  else if 'a' ≤ c ∧ c ≤ 'f' then c.toNat - 97 + 10
  else c.toNat - 65 + 10

/-- Value of a hexadecimal digit string, as `parseInt(hex, 16)`. -/
def parseHexDigits (ds : List Char) : Nat := ds.foldl (fun a c => a * 16 + hexDigitVal c) 0

/-- Value of a decimal digit string, as `parseInt(dec, 10)`. -/
def parseDecDigits (ds : List Char) : Nat := ds.foldl (fun a c => a * 10 + (c.toNat - 48)) 0

/-- JavaScript `String.fromCharCode`: the UTF-16 code unit of the value
modulo 2^16 (ToUint16). A code unit in the surrogate range has no scalar
value; `Char.ofNat` maps it to U+0000, a divergence confined to inputs that
name lone surrogates. -/
def jsFromCharCode (n : Nat) : Char := Char.ofNat (n % 65536)

/-- Global replace of `&#x([0-9a-fA-F]+);` by `fromCharCode(parseInt(_,16))`. -/
def decodeHexRefsAux : Nat → List Char → List Char
  | 0, l => l
  | _ + 1, [] => []
  | f + 1, c :: rest =>
    if c = '&' then
      match rest with
      | '#' :: 'x' :: rest2 =>
        let ds := rest2.takeWhile isHexDigitChar
        match rest2.drop ds.length with
        | ';' :: tail =>
          if ds ≠ [] then jsFromCharCode (parseHexDigits ds) :: decodeHexRefsAux f tail
          else c :: decodeHexRefsAux f rest
        | _ => c :: decodeHexRefsAux f rest
      | _ => c :: decodeHexRefsAux f rest
    else c :: decodeHexRefsAux f rest

/-- Stage 12 of `stripHtml`: hexadecimal numeric character references. -/
def decodeHexRefs (l : List Char) : List Char := decodeHexRefsAux l.length l

/-- Global replace of `&#(\d+);` by `fromCharCode(parseInt(_,10))`. -/
def decodeDecRefsAux : Nat → List Char → List Char
  | 0, l => l
  | _ + 1, [] => []
  | f + 1, c :: rest =>
    if c = '&' then
      match rest with
      | '#' :: rest2 =>
        let ds := rest2.takeWhile Char.isDigit
        match rest2.drop ds.length with
        | ';' :: tail =>
          if ds ≠ [] then jsFromCharCode (parseDecDigits ds) :: decodeDecRefsAux f tail
          else c :: decodeDecRefsAux f rest
        | _ => c :: decodeDecRefsAux f rest
      | _ => c :: decodeDecRefsAux f rest
    else c :: decodeDecRefsAux f rest

/-- Stage 13 of `stripHtml`: decimal numeric character references. -/
def decodeDecRefs (l : List Char) : List Char := decodeDecRefsAux l.length l

/-- Global replace of `\n{3,}` by exactly two newlines (greedy runs). -/
def collapseNLAux : Nat → List Char → List Char
  | 0, l => l
  | _ + 1, [] => []
  | f + 1, c :: rest =>
    if c = '\n' then
      let run := rest.takeWhile (fun x => x = '\n')
      if 2 ≤ run.length then
        '\n' :: '\n' :: collapseNLAux f (rest.drop run.length)
      else c :: collapseNLAux f rest
    else c :: collapseNLAux f rest

/-- Stage 14 of `stripHtml`: `.replace(/\n{3,}/g, '\n\n')`. -/
def collapseNL (l : List Char) : List Char := collapseNLAux l.length l

/-- JavaScript `.trim()`: drop leading and trailing whitespace. -/
def jsTrim (l : List Char) : List Char :=
  ((l.dropWhile isJsWs).reverse.dropWhile isJsWs).reverse

/-- Faithful model of `stripHtml` (utils, lines 71-88): the fourteen-stage
replace pipeline applied in source order, then trim. -/
def stripHtml (s : String) : String :=
  let l1 := replaceBr s.data
  let l2 := replaceCiSeq "</p>".data ['\n', '\n'] l1
  let l3 := replaceCiSeq "</div>".data ['\n'] l2
  let l4 := removeTags l3
  let l5 := replaceSeq "&nbsp;".data [' '] l4
  let l6 := replaceSeq "&amp;".data ['&'] l5
  let l7 := replaceSeq "&lt;".data ['<'] l6
  let l8 := replaceSeq "&gt;".data ['>'] l7
  let l9 := replaceSeq "&quot;".data ['"'] l8
  let l10 := replaceSeq "&apos;".data ['\''] l9
  let l11 := replaceSeq "&#39;".data ['\''] l10
  let l12 := decodeHexRefs l11
  let l13 := decodeDecRefs l12
  let l14 := collapseNL l13
  String.mk (jsTrim l14)

/-! ## MIME message builder (buildMimeMessage) -/

/-- Builder input (utils, `MimeOptions`); optional fields are checked by
JavaScript truthiness, so an empty string behaves like an absent field.
`toAddr` models the source's `to` field, whose name Lean reserves. -/
structure MimeOptions where
  toAddr : String
  subject : String
  textBody : Option String := none
  htmlBody : Option String := none
  cc : Option String := none
  bcc : Option String := none
  inReplyTo : Option String := none
  references : Option String := none
  threadSubject : Option String := none
deriving DecidableEq

/-- Body section of the message (utils, lines 101-126). The boundary token
`----boundary_${Date.now()}_${Math.random()...}` is modelled by the
caller-supplied `boundarySeed`, the only non-deterministic input. -/
def mimeBodyLines (o : MimeOptions) (boundarySeed : String) : List String :=
  if optTruthy o.htmlBody && optTruthy o.textBody then
    let boundary := "----boundary_" ++ boundarySeed
    ["Content-Type: multipart/alternative; boundary=\"" ++ boundary ++ "\"",
     "",
     "--" ++ boundary,
     "Content-Type: text/plain; charset=UTF-8",
     "Content-Transfer-Encoding: base64",
     "",
     b64encodeString (optVal o.textBody),
     "--" ++ boundary,
     "Content-Type: text/html; charset=UTF-8",
     "Content-Transfer-Encoding: base64",
     "",
     b64encodeString (optVal o.htmlBody),
     "--" ++ boundary ++ "--"]
  else if optTruthy o.htmlBody then
    ["Content-Type: text/html; charset=UTF-8",
     "Content-Transfer-Encoding: base64",
     "",
     b64encodeString (optVal o.htmlBody)]
  else
    ["Content-Type: text/plain; charset=UTF-8",
     "Content-Transfer-Encoding: base64",
     "",
     b64encodeString (optVal o.textBody)]

/-- The `lines` array of `buildMimeMessage` (utils, lines 91-126), in push
order: To, Cc?, Bcc?, Subject, In-Reply-To?, References?, MIME-Version,
then the body section. -/
def buildLines (o : MimeOptions) (boundarySeed : String) : List String :=
  ["To: " ++ o.toAddr]
    ++ (if optTruthy o.cc then ["Cc: " ++ optVal o.cc] else [])
    ++ (if optTruthy o.bcc then ["Bcc: " ++ optVal o.bcc] else [])
    ++ ["Subject: " ++ o.subject]
    ++ (if optTruthy o.inReplyTo then ["In-Reply-To: " ++ optVal o.inReplyTo] else [])
    ++ (if optTruthy o.references then ["References: " ++ optVal o.references] else [])
    ++ ["MIME-Version: 1.0"]
    ++ mimeBodyLines o boundarySeed

/-- Faithful model of `buildMimeMessage` (utils, lines 90-134): join the
lines with CRLF, base64-encode, then '+' to '-', '/' to '_', and strip the
trailing '=' padding. -/
def buildMimeMessage (o : MimeOptions) (boundarySeed : String) : String :=
  stripTrailingEq (mapString toUrlSafeChar (b64encodeString (joinCRLF (buildLines o boundarySeed))))

/-! ## Reply threading (GmailClient.replyToEmail, gmail-client lines 200-226) -/

/-- The pure core of `replyToEmail`: from the original message's headers and
the reply's body, the `MimeOptions` handed to the builder. Header lookups
that find nothing are mapped to the empty string by `|| ''`. -/
def replyOptions (headers : Option (List MessagePartHeader)) (body : String)
    (isHtml replyAll : Bool) : MimeOptions :=
  let originalFrom := optVal (getHeader headers "From")
  let originalTo := optVal (getHeader headers "To")
  let originalCc := optVal (getHeader headers "Cc")
  let originalSubject := optVal (getHeader headers "Subject")
  let originalMessageId := optVal (getHeader headers "Message-ID")
  let originalReferences := optVal (getHeader headers "References")
  let subject :=
    if strStarts "Re:" originalSubject then originalSubject else "Re: " ++ originalSubject
  let cc :=
    if replyAll then
      some (String.intercalate ", " (([originalTo, originalCc]).filter (fun s => s ≠ "")))
    else none
  let references :=
    if originalReferences ≠ "" then originalReferences ++ " " ++ originalMessageId
    else originalMessageId
  { toAddr := originalFrom
    subject := subject
    cc := cc
    textBody := if isHtml then none else some body
    htmlBody := if isHtml then some body else none
    inReplyTo := some originalMessageId
    references := some references }

/-- A line that is neither an In-Reply-To nor a References header line. -/
def noThreadHeader (l : String) : Bool :=
  !strStarts "In-Reply-To:" l && !strStarts "References:" l

/-! ## Digit strings, for reasoning about numeric character references -/

/-- Hexadecimal digit characters in value order (parseInt accepts either
case; the reference strings built here use lower case). -/
def hexDigitTable : List Char :=
  (List.range 10).map (fun k => Char.ofNat (48 + k)) ++
    (List.range 6).map (fun k => Char.ofNat (97 + k))

/-- Decimal digit characters in value order. -/
def decDigitTable : List Char :=
  (List.range 10).map (fun k => Char.ofNat (48 + k))

/-- Fueled digit-string builder, most significant digit first. Fuel n + 1
suffices to print n. -/
def natToBaseAux (base : Nat) (table : List Char) : Nat → Nat → List Char → List Char
  | 0, _, acc => acc
  | f + 1, n, acc =>
    if n < base then table.getD n '0' :: acc
    else natToBaseAux base table f (n / base) (table.getD (n % base) '0' :: acc)

/-- Hexadecimal digit string of a number. -/
def natToHexChars (n : Nat) : List Char := natToBaseAux 16 hexDigitTable (n + 1) n []

/-- Decimal digit string of a number. -/
def natToDecChars (n : Nat) : List Char := natToBaseAux 10 decDigitTable (n + 1) n []

/-- The hexadecimal numeric character reference for a code point. -/
def hexRefString (n : Nat) : String :=
  String.mk ('&' :: '#' :: 'x' :: (natToHexChars n ++ [';']))

/-- The decimal numeric character reference for a code point. -/
def decRefString (n : Nat) : String :=
  String.mk ('&' :: '#' :: (natToDecChars n ++ [';']))

/-! ## UTF-8 round-trip lemmas -/

/-- A character's code point is mapped back to the character. -/
theorem charOfNat_toNat (c : Char) : Char.ofNat c.toNat = c := by
  rcases c with ⟨v, h⟩
  simp [Char.ofNat, Char.toNat, h]
  rfl

/-- The decoder yields nothing on no bytes, whatever the fuel. -/
theorem utf8DecodeAux_nil (fuel : Nat) : utf8DecodeAux fuel [] = [] := by
  cases fuel <;> simp [utf8DecodeAux]

/-- Decoder step on an ASCII byte. -/
theorem utf8DecodeAux_step1 (b : Nat) (h : b < 0x80) (fuel : Nat) (bs : List Nat) :
    utf8DecodeAux (fuel + 1) (b :: bs) = Char.ofNat b :: utf8DecodeAux fuel bs := by
  simp only [utf8DecodeAux]
  rw [if_pos h]

/-- Decoder step on a well-formed two-byte sequence. -/
theorem utf8DecodeAux_step2 (b b1 : Nat) (h1 : 0xC2 ≤ b) (h2 : b < 0xE0) (hc : isCont b1)
    (fuel : Nat) (bs : List Nat) :
    utf8DecodeAux (fuel + 1) (b :: b1 :: bs) =
      Char.ofNat ((b - 0xC0) * 64 + (b1 - 0x80)) :: utf8DecodeAux fuel bs := by
  simp only [utf8DecodeAux]
  rw [if_neg (by omega), if_neg (by omega), if_pos (by omega)]
  rw [if_pos hc]

/-- Decoder step on a well-formed three-byte sequence. -/
theorem utf8DecodeAux_step3 (b b1 b2 : Nat) (h1 : 0xE0 ≤ b) (h2 : b < 0xF0)
    (hc1 : isCont b1) (hc2 : isCont b2) (he : b = 0xE0 → 0xA0 ≤ b1) (hs : b = 0xED → b1 < 0xA0)
    (fuel : Nat) (bs : List Nat) :
    utf8DecodeAux (fuel + 1) (b :: b1 :: b2 :: bs) =
      Char.ofNat ((b - 0xE0) * 4096 + (b1 - 0x80) * 64 + (b2 - 0x80)) :: utf8DecodeAux fuel bs := by
  simp only [utf8DecodeAux]
  rw [if_neg (by omega), if_neg (by omega), if_neg (by omega), if_pos (by omega)]
  rw [if_pos (And.intro hc1 (And.intro hc2 (And.intro he hs)))]

/-- Decoder step on a well-formed four-byte sequence. -/
theorem utf8DecodeAux_step4 (b b1 b2 b3 : Nat) (h1 : 0xF0 ≤ b) (h2 : b < 0xF5)
    (hc1 : isCont b1) (hc2 : isCont b2) (hc3 : isCont b3)
    (he : b = 0xF0 → 0x90 ≤ b1) (hs : b = 0xF4 → b1 < 0x90)
    (fuel : Nat) (bs : List Nat) :
    utf8DecodeAux (fuel + 1) (b :: b1 :: b2 :: b3 :: bs) =
      Char.ofNat ((b - 0xF0) * 262144 + (b1 - 0x80) * 4096 + (b2 - 0x80) * 64 + (b3 - 0x80)) ::
        utf8DecodeAux fuel bs := by
  simp only [utf8DecodeAux]
  rw [if_neg (by omega), if_neg (by omega), if_neg (by omega), if_neg (by omega), if_pos (by omega)]
  rw [if_pos (And.intro hc1 (And.intro hc2 (And.intro hc3 (And.intro he hs))))]

/-- Decoding consumes one encoded character and yields it back. -/
theorem utf8DecodeAux_encodeChar (c : Char) (bs : List Nat) (fuel : Nat) :
    utf8DecodeAux (fuel + 1) (utf8EncodeChar c ++ bs) = c :: utf8DecodeAux fuel bs := by
  have hv : c.val.isValidChar := c.valid
  have hval : c.toNat < 0xD800 ∨ (0xDFFF < c.toNat ∧ c.toNat < 0x110000) := by
    rcases hv with h | h
    · exact Or.inl h
    · exact Or.inr (And.intro h.1 h.2)
  unfold utf8EncodeChar
  by_cases h80 : c.toNat < 0x80
  · rw [if_pos h80]
    simp only [List.cons_append, List.nil_append]
    rw [utf8DecodeAux_step1 _ h80, charOfNat_toNat]
  · by_cases h800 : c.toNat < 0x800
    · rw [if_neg h80, if_pos h800]
      simp only [List.cons_append, List.nil_append]
      rw [utf8DecodeAux_step2 _ _ (by omega) (by omega) (by constructor <;> omega)]
      have e : (0xC0 + c.toNat / 64 - 0xC0) * 64 + (0x80 + c.toNat % 64 - 0x80) = c.toNat := by
        omega
      rw [e, charOfNat_toNat]
    · by_cases h1 : c.toNat < 0x10000
      · rw [if_neg h80, if_neg h800, if_pos h1]
        simp only [List.cons_append, List.nil_append]
        rw [utf8DecodeAux_step3 _ _ _ (by omega) (by omega)
          (by constructor <;> omega) (by constructor <;> omega)
          (by intro hx; omega) (by intro hx; omega)]
        have e : (0xE0 + c.toNat / 4096 - 0xE0) * 4096 + (0x80 + c.toNat / 64 % 64 - 0x80) * 64 +
            (0x80 + c.toNat % 64 - 0x80) = c.toNat := by omega
        rw [e, charOfNat_toNat]
      · rw [if_neg h80, if_neg h800, if_neg h1]
        simp only [List.cons_append, List.nil_append]
        rw [utf8DecodeAux_step4 _ _ _ _ (by omega) (by omega)
          (by constructor <;> omega) (by constructor <;> omega) (by constructor <;> omega)
          (by intro hx; omega) (by intro hx; omega)]
        have e : (0xF0 + c.toNat / 262144 - 0xF0) * 262144 +
            (0x80 + c.toNat / 4096 % 64 - 0x80) * 4096 +
            (0x80 + c.toNat / 64 % 64 - 0x80) * 64 + (0x80 + c.toNat % 64 - 0x80) = c.toNat := by
          omega
        rw [e, charOfNat_toNat]

/-- An encoded character takes at least one byte. -/
theorem utf8EncodeChar_length_pos (c : Char) : 0 < (utf8EncodeChar c).length := by
  unfold utf8EncodeChar
  split <;> [simp; (split <;> [simp; (split <;> simp)])]

/-- A character list is no longer than its UTF-8 encoding. -/
theorem length_le_flatMap_utf8 (cs : List Char) :
    cs.length ≤ (cs.flatMap utf8EncodeChar).length := by
  induction cs with
  | nil => simp
  | cons c cs ih =>
    simp only [List.flatMap_cons, List.length_cons, List.length_append]
    have := utf8EncodeChar_length_pos c
    omega

/-- With fuel at least the character count, decoding inverts encoding. -/
theorem utf8DecodeAux_flatMap (cs : List Char) (fuel : Nat) (h : cs.length ≤ fuel) :
    utf8DecodeAux fuel (cs.flatMap utf8EncodeChar) = cs := by
  induction cs generalizing fuel with
  | nil => simpa using utf8DecodeAux_nil fuel
  | cons c cs ih =>
    match fuel, h with
    | f + 1, h =>
      rw [List.flatMap_cons, utf8DecodeAux_encodeChar, ih f (by simpa using Nat.lt_succ_iff.mp h)]

/-- UTF-8 decoding inverts UTF-8 encoding on every string. -/
theorem utf8DecodeString_encode (s : String) : utf8DecodeString (utf8Encode s) = s := by
  unfold utf8DecodeString utf8DecodeBytes utf8Encode
  rw [utf8DecodeAux_flatMap s.data _ (length_le_flatMap_utf8 s.data)]

/-- Every byte of an encoded character is below 256. -/
theorem utf8EncodeChar_lt_256 (c : Char) : ∀ b ∈ utf8EncodeChar c, b < 256 := by
  have hv : c.val.isValidChar := c.valid
  have hub : c.toNat < 0x110000 := by
    rcases hv with h | h
    · exact Nat.lt_trans h (by norm_num)
    · exact h.2
  unfold utf8EncodeChar
  intro b hb
  split at hb
  · simp only [List.mem_cons, List.not_mem_nil, or_false] at hb
    omega
  · split at hb
    · simp only [List.mem_cons, List.not_mem_nil, or_false] at hb
      rcases hb with rfl | rfl <;> omega
    · split at hb
      · simp only [List.mem_cons, List.not_mem_nil, or_false] at hb
        rcases hb with rfl | rfl | rfl <;> omega
      · simp only [List.mem_cons, List.not_mem_nil, or_false] at hb
        rcases hb with rfl | rfl | rfl | rfl <;> omega

/-- Every byte of an encoded string is below 256. -/
theorem utf8Encode_lt_256 (s : String) : ∀ b ∈ utf8Encode s, b < 256 := by
  intro b hb
  unfold utf8Encode at hb
  rcases List.mem_flatMap.mp hb with ⟨c, _, hc⟩
  exact utf8EncodeChar_lt_256 c b hc

/-! ## Base64 round-trip lemmas -/

/-- Reading back an alphabet character recovers its six-bit value. -/
theorem b64CharVal_sextetToChar : ∀ k < 64, b64CharVal (sextetToChar k) = some k := by
  decide

/-- Padding characters are skipped by the reader. -/
theorem b64CharVal_eq : b64CharVal '=' = none := by decide

/-- Decoding inverts encoding on byte lists (all bytes below 256). -/
theorem sextetsToBytes_bytesToB64 :
    ∀ bs : List Nat, (∀ b ∈ bs, b < 256) →
      sextetsToBytes ((bytesToB64 bs).filterMap b64CharVal) = bs
  | [], _ => by simp [bytesToB64, sextetsToBytes]
  | [a], h => by
    have ha : a < 256 := h a (by simp)
    simp only [bytesToB64, List.filterMap_cons,
      b64CharVal_sextetToChar _ (by omega : a / 4 < 64),
      b64CharVal_sextetToChar _ (by omega : a % 4 * 16 < 64), b64CharVal_eq,
      List.filterMap_nil]
    simp only [sextetsToBytes]
    congr 1
    omega
  | [a, b], h => by
    have ha : a < 256 := h a (by simp)
    have hb : b < 256 := h b (by simp)
    simp only [bytesToB64, List.filterMap_cons,
      b64CharVal_sextetToChar _ (by omega : a / 4 < 64),
      b64CharVal_sextetToChar _ (by omega : a % 4 * 16 + b / 16 < 64),
      b64CharVal_sextetToChar _ (by omega : b % 16 * 4 < 64), b64CharVal_eq,
      List.filterMap_nil]
    simp only [sextetsToBytes, List.cons.injEq, and_true]
    exact And.intro (by omega) (by omega)
  | a :: b :: c :: rest, h => by
    have ha : a < 256 := h a (by simp)
    have hb : b < 256 := h b (by simp)
    have hc : c < 256 := h c (by simp)
    have ih := sextetsToBytes_bytesToB64 rest (fun x hx => h x (by simp [hx]))
    simp only [bytesToB64, List.filterMap_cons,
      b64CharVal_sextetToChar _ (by omega : a / 4 < 64),
      b64CharVal_sextetToChar _ (by omega : a % 4 * 16 + b / 16 < 64),
      b64CharVal_sextetToChar _ (by omega : b % 16 * 4 + c / 64 < 64),
      b64CharVal_sextetToChar _ (by omega : c % 64 < 64)]
    simp only [sextetsToBytes, ih, List.cons.injEq, and_true]
    exact And.intro (by omega) (And.intro (by omega) (by omega))

/-- Round trip through the string-level base64 codec. -/
theorem b64decode_b64encode (s : String) : b64decodeToBytes (b64encodeString s) = utf8Encode s := by
  unfold b64decodeToBytes b64encodeString
  exact sextetsToBytes_bytesToB64 (utf8Encode s) (utf8Encode_lt_256 s)

/-- Every character the encoder emits is in the alphabet or is '='. -/
theorem bytesToB64_mem :
    ∀ bs : List Nat, ∀ c ∈ bytesToB64 bs, c ∈ b64Table ∨ c = '='
  | [], c, hc => by simp [bytesToB64] at hc
  | [a], c, hc => by
    simp only [bytesToB64, List.mem_cons, List.not_mem_nil, or_false] at hc
    have hm : ∀ k : Nat, sextetToChar k ∈ b64Table := fun k => by
      unfold sextetToChar
      rcases Nat.lt_or_ge k b64Table.length with h | h
      · rw [List.getD_eq_getElem _ _ h]
        exact List.getElem_mem h
      · rw [List.getD_eq_default _ _ h]
        decide
    rcases hc with rfl | rfl | rfl | rfl
    · exact Or.inl (hm _)
    · exact Or.inl (hm _)
    · exact Or.inr rfl
    · exact Or.inr rfl
  | [a, b], c, hc => by
    simp only [bytesToB64, List.mem_cons, List.not_mem_nil, or_false] at hc
    have hm : ∀ k : Nat, sextetToChar k ∈ b64Table := fun k => by
      unfold sextetToChar
      rcases Nat.lt_or_ge k b64Table.length with h | h
      · rw [List.getD_eq_getElem _ _ h]
        exact List.getElem_mem h
      · rw [List.getD_eq_default _ _ h]
        decide
    rcases hc with rfl | rfl | rfl | rfl
    · exact Or.inl (hm _)
    · exact Or.inl (hm _)
    · exact Or.inl (hm _)
    · exact Or.inr rfl
  | a :: b :: d :: rest, c, hc => by
    simp only [bytesToB64, List.mem_cons] at hc
    have hm : ∀ k : Nat, sextetToChar k ∈ b64Table := fun k => by
      unfold sextetToChar
      rcases Nat.lt_or_ge k b64Table.length with h | h
      · rw [List.getD_eq_getElem _ _ h]
        exact List.getElem_mem h
      · rw [List.getD_eq_default _ _ h]
        decide
    rcases hc with rfl | rfl | rfl | rfl | hc
    · exact Or.inl (hm _)
    · exact Or.inl (hm _)
    · exact Or.inl (hm _)
    · exact Or.inl (hm _)
    · exact bytesToB64_mem rest c hc

/-- No character the encoder emits is a colon. -/
theorem bytesToB64_no_colon (bs : List Nat) : ∀ c ∈ bytesToB64 bs, c ≠ ':' := by
  intro c hc
  rcases bytesToB64_mem bs c hc with h | rfl
  · intro hq
    subst hq
    revert h
    decide
  · decide

/-! ## Builder helper lemmas -/

/-- The transport substitution never outputs '+' or '/'. -/
theorem toUrlSafeChar_ne (c : Char) : toUrlSafeChar c ≠ '+' ∧ toUrlSafeChar c ≠ '/' := by
  unfold toUrlSafeChar
  split
  · constructor <;> decide
  · split
    · constructor <;> decide
    · rename_i h1 h2
      exact And.intro h1 h2

/-- Characters surviving the trailing-'=' strip come from the input. -/
theorem mem_stripTrailingEq (s : String) : ∀ c ∈ (stripTrailingEq s).data, c ∈ s.data := by
  intro c hc
  unfold stripTrailingEq at hc
  simp only [List.mem_reverse] at hc
  have := (List.dropWhile_sublist (fun x => decide (x = '='))).subset hc
  simpa using this

/-- The head a dropWhile exposes fails the predicate. -/
theorem head_dropWhile_not (p : Char → Bool) :
    ∀ l : List Char, ∀ a, (l.dropWhile p).head? = some a → p a = false := by
  intro l
  induction l with
  | nil => intro a h; simp [List.dropWhile] at h
  | cons c l ih =>
    intro a h
    by_cases hc : p c
    · rw [List.dropWhile_cons_of_pos hc] at h
      exact ih a h
    · rw [List.dropWhile_cons_of_neg hc] at h
      simp only [List.head?_cons, Option.some.injEq] at h
      subst h
      simpa using hc

/-- The last character after the trailing-'=' strip is never '='. -/
theorem stripTrailingEq_getLast (s : String) :
    ∀ c, (stripTrailingEq s).data.getLast? = some c → c ≠ '=' := by
  intro c hc
  unfold stripTrailingEq at hc
  rw [List.getLast?_reverse] at hc
  have := head_dropWhile_not (fun x => decide (x = '=')) _ _ hc
  simpa using this

/-- C5: for every MimeOptions (and boundary seed), the string returned by
buildMimeMessage contains no '+', no '/', and does not end in '='. -/
theorem buildMime_transport_safe (o : MimeOptions) (seed : String) :
    '+' ∉ (buildMimeMessage o seed).data ∧ '/' ∉ (buildMimeMessage o seed).data ∧
      ∀ c, (buildMimeMessage o seed).data.getLast? = some c → c ≠ '=' := by
  refine ⟨?_, ?_, stripTrailingEq_getLast _⟩
  · intro hmem
    have h2 := mem_stripTrailingEq _ _ hmem
    unfold mapString at h2
    simp only [List.mem_map] at h2
    rcases h2 with ⟨d, _, hd⟩
    exact (toUrlSafeChar_ne d).1 hd
  · intro hmem
    have h2 := mem_stripTrailingEq _ _ hmem
    unfold mapString at h2
    simp only [List.mem_map] at h2
    rcases h2 with ⟨d, _, hd⟩
    exact (toUrlSafeChar_ne d).2 hd

/-- Witness for C5 at a concrete input. -/
theorem buildMime_transport_safe_witness :
    '+' ∉ (buildMimeMessage { toAddr := "a", subject := "s", textBody := some "x" } "b").data ∧
      '/' ∉ (buildMimeMessage { toAddr := "a", subject := "s", textBody := some "x" } "b").data ∧
      ∀ c, (buildMimeMessage { toAddr := "a", subject := "s", textBody := some "x" } "b").data.getLast?
        = some c → c ≠ '=' :=
  buildMime_transport_safe { toAddr := "a", subject := "s", textBody := some "x" } "b"

/-- C3: the base64 body line the builder emits for a plain-text body, read
back through the decoder's base64url-and-UTF-8 step, reproduces the body
exactly, for every string including multi-byte ones; and that line is
precisely the last line the builder assembles for a plain-text message. -/
theorem builder_decoder_roundtrip (s recipient subj seed : String) :
    buildLines { toAddr := recipient, subject := subj, textBody := some s } seed =
      ["To: " ++ recipient, "Subject: " ++ subj, "MIME-Version: 1.0",
       "Content-Type: text/plain; charset=UTF-8", "Content-Transfer-Encoding: base64", "",
       b64encodeString s] ∧
      utf8DecodeString (b64decodeToBytes (b64encodeString s)) = s := by
  constructor
  · rfl
  · rw [b64decode_b64encode, utf8DecodeString_encode]

/-- C9: whenever textBody and htmlBody are not both truthy, the builder
ignores its boundary seed: the output is the same for any two seeds. -/
theorem buildMime_deterministic_singlepart (o : MimeOptions)
    (h : ¬(optTruthy o.textBody = true ∧ optTruthy o.htmlBody = true)) (s1 s2 : String) :
    buildMimeMessage o s1 = buildMimeMessage o s2 := by
  have hc : (optTruthy o.htmlBody && optTruthy o.textBody) = false := by
    cases hh : optTruthy o.htmlBody <;> cases ht : optTruthy o.textBody <;> simp_all
  have hbody : mimeBodyLines o s1 = mimeBodyLines o s2 := by
    unfold mimeBodyLines
    rw [hc]
    simp
  unfold buildMimeMessage buildLines
  rw [hbody]

/-- Witness for C9: two different seeds give the same single-part message. -/
theorem buildMime_deterministic_singlepart_witness :
    buildMimeMessage { toAddr := "a", subject := "s", textBody := some "x" } "seedone" =
      buildMimeMessage { toAddr := "a", subject := "s", textBody := some "x" } "seedtwo" :=
  buildMime_deterministic_singlepart _ (by decide) "seedone" "seedtwo"

set_option maxRecDepth 40000 in
/-- C2: headers are emitted in the fixed order To, Cc (if present), Bcc (if
present), Subject, In-Reply-To (if present), References (if present),
MIME-Version: 1.0, before the body section; and the concrete message for
{to: b@x.com, subject: Hi, textBody: Hello} decodes (undo the transport
substitution, restore padding, base64-decode) to the expected CRLF-joined
block containing the stated lines, whose base64 line decodes to Hello. -/
theorem buildMime_header_order_and_endtoend :
    (∀ (o : MimeOptions) (seed : String), ∃ rest, buildLines o seed =
      (["To: " ++ o.toAddr]
        ++ (if optTruthy o.cc then ["Cc: " ++ optVal o.cc] else [])
        ++ (if optTruthy o.bcc then ["Bcc: " ++ optVal o.bcc] else [])
        ++ ["Subject: " ++ o.subject]
        ++ (if optTruthy o.inReplyTo then ["In-Reply-To: " ++ optVal o.inReplyTo] else [])
        ++ (if optTruthy o.references then ["References: " ++ optVal o.references] else [])
        ++ ["MIME-Version: 1.0"]) ++ rest) ∧
    decodeTransport
        (buildMimeMessage { toAddr := "b@x.com", subject := "Hi", textBody := some "Hello" }
          "seed0") =
      "To: b@x.com\r\nSubject: Hi\r\nMIME-Version: 1.0\r\nContent-Type: text/plain; charset=UTF-8\r\nContent-Transfer-Encoding: base64\r\n\r\nSGVsbG8=" ∧
    (["To: b@x.com", "Subject: Hi", "MIME-Version: 1.0",
      "Content-Type: text/plain; charset=UTF-8"].all (fun l =>
        (splitCRLF "To: b@x.com\r\nSubject: Hi\r\nMIME-Version: 1.0\r\nContent-Type: text/plain; charset=UTF-8\r\nContent-Transfer-Encoding: base64\r\n\r\nSGVsbG8=").contains l)) = true ∧
    (splitCRLF "To: b@x.com\r\nSubject: Hi\r\nMIME-Version: 1.0\r\nContent-Type: text/plain; charset=UTF-8\r\nContent-Transfer-Encoding: base64\r\n\r\nSGVsbG8=").contains "SGVsbG8=" = true ∧
    utf8DecodeString (b64decodeToBytes "SGVsbG8=") = "Hello" := by
  refine ⟨fun o seed => ⟨mimeBodyLines o seed, rfl⟩, by decide, by decide, by decide, by decide⟩

/-- C7: with replyAll, the Cc handed to the builder is the comma-plus-space
join of the original To and Cc header values with empty values dropped (no
per-address deduplication); concretely, To = a@x.com with empty Cc yields
exactly a@x.com. -/
theorem replyAll_cc_composition (headers : Option (List MessagePartHeader)) (body : String)
    (isHtml : Bool) :
    (replyOptions headers body isHtml true).cc =
      some (String.intercalate ", "
        ([optVal (getHeader headers "To"), optVal (getHeader headers "Cc")].filter
          (fun s => s ≠ ""))) ∧
    (replyOptions (some [⟨some "To", some "a@x.com"⟩, ⟨some "Cc", some ""⟩])
        "b" false true).cc = some "a@x.com" := by
  constructor
  · rfl
  · decide

/-- C8: the References value passed to the builder appends the original
Message-ID to the original References when the latter is non-empty and is
exactly the original Message-ID otherwise; In-Reply-To is always the
original Message-ID. -/
theorem reply_threading_headers (headers : Option (List MessagePartHeader)) (body : String)
    (isHtml replyAll : Bool) :
    (replyOptions headers body isHtml replyAll).references =
      some (if optVal (getHeader headers "References") ≠ "" then
              optVal (getHeader headers "References") ++ " " ++
                optVal (getHeader headers "Message-ID")
            else optVal (getHeader headers "Message-ID")) ∧
    (replyOptions headers body isHtml replyAll).inReplyTo =
      some (optVal (getHeader headers "Message-ID")) :=
  And.intro rfl rfl

/-! ## Reply-threading helper lemmas (for C10) -/

/-- A prefix test fails when the first characters differ. -/
theorem listStarts_cons_false (a b : Char) (as bs : List Char) (h : a ≠ b) :
    listStarts (a :: as) (b :: bs) = false := by
  simp [listStarts, h]

/-- A successful prefix test puts every prefix character in the target. -/
theorem listStarts_subset :
    ∀ p l : List Char, listStarts p l = true → ∀ x ∈ p, x ∈ l := by
  intro p
  induction p with
  | nil => intro l _ x hx; simp at hx
  | cons a as ih =>
    intro l hl x hx
    match l, hl with
    | b :: bs, hl =>
      simp only [listStarts, Bool.and_eq_true, beq_iff_eq] at hl
      rcases hl with ⟨rfl, hrest⟩
      rcases List.mem_cons.mp hx with rfl | hx
      · exact List.mem_cons_self _ _
      · exact List.mem_cons_of_mem _ (ih bs hrest x hx)

/-- The character list of the In-Reply-To prefix. -/
theorem data_inReplyTo :
    "In-Reply-To:".data = ['I', 'n', '-', 'R', 'e', 'p', 'l', 'y', '-', 'T', 'o', ':'] := rfl

/-- The character list of the References prefix. -/
theorem data_references :
    "References:".data = ['R', 'e', 'f', 'e', 'r', 'e', 'n', 'c', 'e', 's', ':'] := rfl

/-- A line whose first character is neither 'I' nor 'R' is no threading
header line. -/
theorem noThreadHeader_of_head (l : String) (c : Char) (cs : List Char)
    (hd : l.data = c :: cs) (hI : c ≠ 'I') (hR : c ≠ 'R') : noThreadHeader l = true := by
  unfold noThreadHeader strStarts
  rw [hd, data_inReplyTo, data_references,
    listStarts_cons_false _ _ _ _ (fun he => hI he.symm),
    listStarts_cons_false _ _ _ _ (fun he => hR he.symm)]
  rfl

/-- A base64 line contains no colon, hence is no threading header line. -/
theorem noThreadHeader_b64 (bs : List Nat) : noThreadHeader (String.mk (bytesToB64 bs)) = true := by
  unfold noThreadHeader strStarts
  have hI : listStarts "In-Reply-To:".data (String.mk (bytesToB64 bs)).data = false := by
    cases hq : listStarts "In-Reply-To:".data (String.mk (bytesToB64 bs)).data
    · rfl
    · have := listStarts_subset _ _ hq ':' (by rw [data_inReplyTo]; simp)
      exact absurd rfl (bytesToB64_no_colon bs ':' this)
  have hR : listStarts "References:".data (String.mk (bytesToB64 bs)).data = false := by
    cases hq : listStarts "References:".data (String.mk (bytesToB64 bs)).data
    · rfl
    · have := listStarts_subset _ _ hq ':' (by rw [data_references]; simp)
      exact absurd rfl (bytesToB64_no_colon bs ':' this)
  rw [hI, hR]
  rfl

/-- No line of the builder's body section is a threading header line. -/
theorem mimeBodyLines_noThread (o : MimeOptions) (seed : String) :
    ∀ l ∈ mimeBodyLines o seed, noThreadHeader l = true := by
  intro l hl
  unfold mimeBodyLines at hl
  split at hl
  · simp only [List.mem_cons, List.not_mem_nil, or_false] at hl
    rcases hl with rfl | rfl | rfl | rfl | rfl | rfl | rfl | rfl | rfl | rfl | rfl | rfl | rfl
    · exact noThreadHeader_of_head _ 'C' _ (by rw [String.data_append]; rfl)
        (by decide) (by decide)
    · decide
    · exact noThreadHeader_of_head _ '-' _ (by rw [String.data_append]; rfl)
        (by decide) (by decide)
    · decide
    · decide
    · decide
    · exact noThreadHeader_b64 _
    · exact noThreadHeader_of_head _ '-' _ (by rw [String.data_append]; rfl)
        (by decide) (by decide)
    · decide
    · decide
    · decide
    · exact noThreadHeader_b64 _
    · exact noThreadHeader_of_head _ '-' _ (by rw [String.data_append]; rfl)
        (by decide) (by decide)
  · split at hl
    · simp only [List.mem_cons, List.not_mem_nil, or_false] at hl
      rcases hl with rfl | rfl | rfl | rfl
      · decide
      · decide
      · decide
      · exact noThreadHeader_b64 _
    · simp only [List.mem_cons, List.not_mem_nil, or_false] at hl
      rcases hl with rfl | rfl | rfl | rfl
      · decide
      · decide
      · decide
      · exact noThreadHeader_b64 _

/-- C10: when the original message has neither a Message-ID nor a
References header, the reply's assembled message contains no In-Reply-To
line and no References line: the builder omits both headers because the
corresponding options are empty strings. -/
theorem reply_without_ids_omits_thread_headers (headers : Option (List MessagePartHeader))
    (body seed : String) (isHtml replyAll : Bool)
    (h1 : getHeader headers "Message-ID" = none)
    (h2 : getHeader headers "References" = none) :
    (buildLines (replyOptions headers body isHtml replyAll) seed).all noThreadHeader = true := by
  have hio : (replyOptions headers body isHtml replyAll).inReplyTo = some "" := by
    show some (optVal (getHeader headers "Message-ID")) = some ""
    rw [h1]
    rfl
  have hro : (replyOptions headers body isHtml replyAll).references = some "" := by
    show some (if optVal (getHeader headers "References") ≠ "" then
        optVal (getHeader headers "References") ++ " " ++ optVal (getHeader headers "Message-ID")
      else optVal (getHeader headers "Message-ID")) = some ""
    rw [h1, h2]
    rfl
  have hbcc : (replyOptions headers body isHtml replyAll).bcc = none := rfl
  rw [List.all_eq_true]
  intro l hl
  unfold buildLines at hl
  rw [hio, hro, hbcc] at hl
  simp only [List.mem_append, List.mem_cons, List.not_mem_nil, or_false] at hl
  rcases hl with ((((((rfl | hcc) | hbc) | rfl) | hir) | hrf) | rfl) | hbody
  · exact noThreadHeader_of_head _ 'T' _ (by rw [String.data_append]; rfl) (by decide) (by decide)
  · split at hcc
    · simp only [List.mem_cons, List.not_mem_nil, or_false] at hcc
      subst hcc
      exact noThreadHeader_of_head _ 'C' _ (by rw [String.data_append]; rfl)
        (by decide) (by decide)
    · simp at hcc
  · simp only [show optTruthy (none : Option String) = false from rfl] at hbc
    simp at hbc
  · exact noThreadHeader_of_head _ 'S' _ (by rw [String.data_append]; rfl) (by decide) (by decide)
  · simp only [show optTruthy (some "") = false from rfl] at hir
    simp at hir
  · simp only [show optTruthy (some "") = false from rfl] at hrf
    simp at hrf
  · decide
  · exact mimeBodyLines_noThread _ _ l hbody

/-- Witness for C10 at a concrete input: a reply to a message with no
headers at all. -/
theorem reply_without_ids_omits_thread_headers_witness :
    (buildLines (replyOptions (some []) "hi" false false) "s").all noThreadHeader = true :=
  reply_without_ids_omits_thread_headers (some []) "hi" "s" false false rfl rfl

/-! ## Payload tree lemmas (for C1 and C4) -/

/-- Structural induction for payload trees through the children list. -/
theorem MessagePart.inductionOn (motive : MessagePart → Prop)
    (h : ∀ m f b parts, (∀ p ∈ parts, motive p) → motive (.mk m f b parts)) :
    ∀ p, motive p
  | .mk m f b parts =>
    h m f b parts (fun q _ => MessagePart.inductionOn motive h q)
termination_by p => sizeOf p
decreasing_by
  rename_i hq
  have := List.sizeOf_lt_of_mem hq
  simp only [MessagePart.mk.sizeOf_spec]
  omega

/-- A candidate's decoded data is non-empty. -/
theorem isBodyCandidate_decode_ne (mt : String) (q : MessagePart)
    (h : isBodyCandidate mt q = true) : decodeBodyData (optVal q.bodyData) ≠ "" := by
  unfold isBodyCandidate at h
  simp only [Bool.and_eq_true] at h
  rcases h with ⟨_, h2⟩
  cases hd : q.bodyData with
  | none => rw [hd] at h2; simp at h2
  | some d =>
    rw [hd] at h2
    simp only [ne_eq, bne_iff_ne] at h2
    simpa [optVal] using h2

/-- First-candidate selection distributes over append with the
first-non-empty-wins rule. -/
theorem firstBody_append (mt : String) (a b : List MessagePart) :
    firstBody mt (a ++ b) =
      if firstBody mt a ≠ "" then firstBody mt a else firstBody mt b := by
  induction a with
  | nil => simp [firstBody]
  | cons q a ih =>
    cases hq : isBodyCandidate mt q
    · unfold firstBody at ih ⊢
      simp only [List.cons_append, List.find?_cons, hq]
      exact ih
    · have hne := isBodyCandidate_decode_ne mt q hq
      unfold firstBody
      simp only [List.cons_append, List.find?_cons, hq]
      rw [if_pos hne]

/-- The loop of extractBody realises first-non-empty-wins over the
children's pre-order candidates. -/
theorem extractBodyList_spec (t h : String) (ps : List MessagePart)
    (ih : ∀ p ∈ ps, extractBody p =
      (firstBody "text/plain" (preorder p), firstBody "text/html" (preorder p))) :
    extractBodyList t h ps =
      (if t ≠ "" then t else firstBody "text/plain" (preorderList ps),
       if h ≠ "" then h else firstBody "text/html" (preorderList ps)) := by
  induction ps generalizing t h with
  | nil =>
    simp only [extractBodyList, preorderList, firstBody, List.find?_nil]
    refine Prod.ext ?_ ?_
    · by_cases ht : t = "" <;> simp [ht]
    · by_cases hh : h = "" <;> simp [hh]
  | cons p ps ihl =>
    have hp := ih p (by simp)
    simp only [extractBodyList, hp]
    rw [ihl _ _ (fun q hq => ih q (by simp [hq]))]
    have hpre : preorderList (p :: ps) = preorder p ++ preorderList ps := by
      simp [preorderList]
    rw [hpre, firstBody_append, firstBody_append]
    refine Prod.ext ?_ ?_
    · by_cases ht : t = "" <;>
        by_cases hf : firstBody "text/plain" (preorder p) = "" <;> simp [ht, hf]
    · by_cases hh : h = "" <;>
        by_cases hf : firstBody "text/html" (preorder p) = "" <;> simp [hh, hf]

/-- Decoding the empty data string gives the empty string. -/
theorem decodeBodyData_empty : decodeBodyData "" = "" := rfl

/-- Merging a node's own field with the children's selection equals the
selection over the node-first traversal. -/
theorem firstBody_cons_own (mt : String) (node : MessagePart) (rest : List MessagePart)
    (own : String)
    (hown : own = if node.mimeType = some mt ∧ optTruthy node.bodyData = true then
      decodeBodyData (optVal node.bodyData) else "") :
    (if own ≠ "" then own else firstBody mt rest) = firstBody mt (node :: rest) := by
  cases hc : isBodyCandidate mt node
  · have hown0 : own = "" := by
      rw [hown]
      by_cases h1 : node.mimeType = some mt ∧ optTruthy node.bodyData = true
      · rw [if_pos h1]
        unfold isBodyCandidate at hc
        rcases h1 with ⟨hm, htr⟩
        cases hd : node.bodyData with
        | none => rw [hd] at htr; simp [optTruthy] at htr
        | some d =>
          rw [hd] at hc
          simp only [hm, beq_self_eq_true, Bool.true_and, bne_eq_false_iff_eq] at hc
          simpa [optVal] using hc
      · rw [if_neg h1]
    rw [hown0]
    rw [if_neg (by simp)]
    unfold firstBody
    simp only [List.find?_cons, hc]
  · have hne := isBodyCandidate_decode_ne mt node hc
    have hc2 := hc
    unfold isBodyCandidate at hc2
    simp only [Bool.and_eq_true, beq_iff_eq] at hc2
    rcases hc2 with ⟨hm, hmatch⟩
    have htr : optTruthy node.bodyData = true := by
      cases hd : node.bodyData with
      | none => rw [hd] at hmatch; simp at hmatch
      | some d =>
        rw [hd] at hmatch
        simp only [bne_iff_ne, ne_eq] at hmatch
        have hdne : d ≠ "" := fun hde => hmatch (by rw [hde]; exact decodeBodyData_empty)
        simpa [optTruthy] using hdne
    have hown2 : own = decodeBodyData (optVal node.bodyData) := by
      rw [hown, if_pos (And.intro hm htr)]
    unfold firstBody
    simp only [List.find?_cons, hc]
    rw [hown2, if_pos hne]

/-- C1: for every payload tree, extractBody returns per field the decoded
data of the first node in left-to-right depth-first pre-order whose
mimeType matches exactly and whose decoded inline body data is non-empty;
later candidates are discarded, and a field with no candidate is "". -/
theorem extractBody_first_preorder (p : MessagePart) :
    extractBody p =
      (firstBody "text/plain" (preorder p), firstBody "text/html" (preorder p)) := by
  induction p using MessagePart.inductionOn with
  | h m f b parts ih =>
    have hpre : preorder (.mk m f b parts) = .mk m f b parts :: preorderList parts := by
      simp [preorder]
    rw [hpre]
    show extractBodyList
      (if m = some "text/plain" ∧ optTruthy (b.bind PartBody.data) = true then
        decodeBodyData (optVal (b.bind PartBody.data)) else "")
      (if m = some "text/html" ∧ optTruthy (b.bind PartBody.data) = true then
        decodeBodyData (optVal (b.bind PartBody.data)) else "") parts = _
    rw [extractBodyList_spec _ _ parts ih]
    refine Prod.ext ?_ ?_
    · exact firstBody_cons_own "text/plain" (.mk m f b parts) (preorderList parts) _ rfl
    · exact firstBody_cons_own "text/html" (.mk m f b parts) (preorderList parts) _ rfl

/-- The attachment loop collects the children's records in traversal
order. -/
theorem extractAttachmentsList_spec (ps : List MessagePart)
    (ih : ∀ p ∈ ps, extractAttachments p =
      ((preorder p).filter isAttachmentPart).map attachmentInfoOf) :
    extractAttachmentsList ps =
      ((preorderList ps).filter isAttachmentPart).map attachmentInfoOf := by
  induction ps with
  | nil => simp [extractAttachmentsList, preorderList]
  | cons p ps ihl =>
    have hpre : preorderList (p :: ps) = preorder p ++ preorderList ps := by
      simp [preorderList]
    simp only [extractAttachmentsList, hpre, List.filter_append, List.map_append]
    rw [ih p (by simp), ihl (fun q hq => ih q (by simp [hq]))]

/-- C4: for every payload tree, extractAttachments returns exactly one
record per node with a truthy filename and a truthy attachmentId, in
depth-first pre-order, with no deduplication; mimeType defaults to
application/octet-stream and size to 0 when absent. -/
theorem extractAttachments_preorder_filter (p : MessagePart) :
    extractAttachments p = ((preorder p).filter isAttachmentPart).map attachmentInfoOf := by
  induction p using MessagePart.inductionOn with
  | h m f b parts ih =>
    have hpre : preorder (.mk m f b parts) = .mk m f b parts :: preorderList parts := by
      simp [preorder]
    rw [hpre]
    show (if isAttachmentPart (.mk m f b parts) then [attachmentInfoOf (.mk m f b parts)] else [])
        ++ extractAttachmentsList parts = _
    rw [extractAttachmentsList_spec parts ih, List.filter_cons]
    cases hq : isAttachmentPart (.mk m f b parts)
    · simp
    · simp

/-! ## Digit-string lemmas (for C6) -/

/-- getD stays in the table when the default is in the table. -/
theorem getD_mem_char (table : List Char) (k : Nat) (d : Char) (hd : d ∈ table) :
    table.getD k d ∈ table := by
  rcases Nat.lt_or_ge k table.length with h | h
  · rw [List.getD_eq_getElem _ _ h]
    exact List.getElem_mem h
  · rw [List.getD_eq_default _ _ h]
    exact hd

/-- The digit builder's accumulator is a suffix of its output. -/
theorem natToBaseAux_append (base : Nat) (table : List Char) :
    ∀ (f n : Nat) (acc : List Char),
      natToBaseAux base table f n acc = natToBaseAux base table f n [] ++ acc
  | 0, n, acc => by simp [natToBaseAux]
  | f + 1, n, acc => by
    by_cases h : n < base
    · simp [natToBaseAux, h]
    · simp only [natToBaseAux, if_neg h]
      rw [natToBaseAux_append base table f (n / base) (table.getD (n % base) '0' :: acc),
        natToBaseAux_append base table f (n / base) [table.getD (n % base) '0']]
      simp

/-- With enough fuel the digit builder emits at least one digit. -/
theorem natToBaseAux_ne_nil (base : Nat) (table : List Char) (hbase : 2 ≤ base) :
    ∀ (f n : Nat) (acc : List Char), n < f → natToBaseAux base table f n acc ≠ []
  | f + 1, n, acc, h => by
    by_cases hn : n < base
    · simp [natToBaseAux, hn]
    · simp only [natToBaseAux, if_neg hn]
      have hlt : n / base < n := Nat.div_lt_self (by omega) (by omega)
      exact natToBaseAux_ne_nil base table hbase f (n / base) _ (by omega)

/-- Every character the digit builder emits is a table digit or from the
accumulator. -/
theorem natToBaseAux_mem (base : Nat) (table : List Char) (h0 : '0' ∈ table) :
    ∀ (f n : Nat) (acc : List Char), ∀ c ∈ natToBaseAux base table f n acc,
      c ∈ table ∨ c ∈ acc
  | 0, n, acc, c, hc => by
    simp only [natToBaseAux] at hc
    exact Or.inr hc
  | f + 1, n, acc, c, hc => by
    by_cases hn : n < base
    · simp only [natToBaseAux, if_pos hn, List.mem_cons] at hc
      rcases hc with rfl | hc
      · exact Or.inl (getD_mem_char table n '0' h0)
      · exact Or.inr hc
    · simp only [natToBaseAux, if_neg hn] at hc
      rcases natToBaseAux_mem base table h0 f (n / base) _ c hc with h | h
      · exact Or.inl h
      · rcases List.mem_cons.mp h with rfl | h
        · exact Or.inl (getD_mem_char table (n % base) '0' h0)
        · exact Or.inr h

/-- The hexadecimal digit string is non-empty. -/
theorem natToHexChars_ne_nil (n : Nat) : natToHexChars n ≠ [] :=
  natToBaseAux_ne_nil 16 hexDigitTable (by omega) (n + 1) n [] (by omega)

/-- The decimal digit string is non-empty. -/
theorem natToDecChars_ne_nil (n : Nat) : natToDecChars n ≠ [] :=
  natToBaseAux_ne_nil 10 decDigitTable (by omega) (n + 1) n [] (by omega)

/-- The hexadecimal digit string consists of table digits. -/
theorem natToHexChars_mem (n : Nat) : ∀ c ∈ natToHexChars n, c ∈ hexDigitTable := by
  intro c hc
  rcases natToBaseAux_mem 16 hexDigitTable (by decide) (n + 1) n [] c hc with h | h
  · exact h
  · simp at h

/-- The decimal digit string consists of table digits. -/
theorem natToDecChars_mem (n : Nat) : ∀ c ∈ natToDecChars n, c ∈ decDigitTable := by
  intro c hc
  rcases natToBaseAux_mem 10 decDigitTable (by decide) (n + 1) n [] c hc with h | h
  · exact h
  · simp at h

/-- Value of a table hex digit. -/
theorem hexDigitVal_table : ∀ m < 16, hexDigitVal (hexDigitTable.getD m '0') = m := by decide

/-- Parsing inverts hexadecimal printing (fueled form). -/
theorem parseHex_natToBaseAux :
    ∀ (f n : Nat), n < f → parseHexDigits (natToBaseAux 16 hexDigitTable f n []) = n
  | f + 1, n, h => by
    by_cases hn : n < 16
    · simp only [natToBaseAux, if_pos hn]
      unfold parseHexDigits
      simp only [List.foldl_cons, List.foldl_nil]
      rw [hexDigitVal_table n hn]
      simp
    · simp only [natToBaseAux, if_neg hn]
      rw [natToBaseAux_append]
      unfold parseHexDigits
      rw [List.foldl_append]
      have hpre := parseHex_natToBaseAux f (n / 16) (by omega)
      unfold parseHexDigits at hpre
      rw [hpre]
      simp only [List.foldl_cons, List.foldl_nil]
      rw [hexDigitVal_table (n % 16) (by omega)]
      omega

/-- Parsing inverts hexadecimal printing. -/
theorem parseHex_natToHexChars (n : Nat) : parseHexDigits (natToHexChars n) = n :=
  parseHex_natToBaseAux (n + 1) n (by omega)

/-- Value of a table decimal digit. -/
theorem decDigitVal_table : ∀ m < 10, (decDigitTable.getD m '0').toNat - 48 = m := by decide

/-- Parsing inverts decimal printing (fueled form). -/
theorem parseDec_natToBaseAux :
    ∀ (f n : Nat), n < f → parseDecDigits (natToBaseAux 10 decDigitTable f n []) = n
  | f + 1, n, h => by
    by_cases hn : n < 10
    · simp only [natToBaseAux, if_pos hn]
      unfold parseDecDigits
      simp only [List.foldl_cons, List.foldl_nil]
      rw [decDigitVal_table n hn]
      simp
    · simp only [natToBaseAux, if_neg hn]
      rw [natToBaseAux_append]
      unfold parseDecDigits
      rw [List.foldl_append]
      have hpre := parseDec_natToBaseAux f (n / 10) (by omega)
      unfold parseDecDigits at hpre
      rw [hpre]
      simp only [List.foldl_cons, List.foldl_nil]
      rw [decDigitVal_table (n % 10) (by omega)]
      omega

/-- Parsing inverts decimal printing. -/
theorem parseDec_natToDecChars (n : Nat) : parseDecDigits (natToDecChars n) = n :=
  parseDec_natToBaseAux (n + 1) n (by omega)

/-! ## Scanner identity lemmas (for C6) -/

/-- No br-tag match starts at a character other than '<'. -/
theorem brMatchLen_none (l : List Char) (h : l.head? ≠ some '<') : brMatchLen l = none := by
  match l with
  | [] => rfl
  | [c] => rfl
  | [c, c1] => rfl
  | c :: c1 :: c2 :: rest =>
    have hc : c ≠ '<' := by
      intro he
      exact h (by rw [he]; rfl)
    simp only [brMatchLen]
    rw [if_neg (fun hx => hc hx.1)]

/-- The br stage is the identity on '<'-free text. -/
theorem replaceBrAux_id : ∀ (f : Nat) (l : List Char), '<' ∉ l → replaceBrAux f l = l
  | 0, _, _ => rfl
  | _ + 1, [], _ => rfl
  | f + 1, c :: rest, h => by
    simp only [List.mem_cons, not_or] at h
    rw [show replaceBrAux (f + 1) (c :: rest) =
        (match brMatchLen (c :: rest) with
          | some k => '\n' :: replaceBrAux f (List.drop k (c :: rest))
          | none => c :: replaceBrAux f rest) from rfl]
    rw [brMatchLen_none _ (by simpa using fun he => h.1 he.symm)]
    rw [replaceBrAux_id f rest (by simpa using h.2)]

/-- A case-insensitive literal replace is the identity when no character of
the text matches the pattern head. -/
theorem replaceCiSeqAux_id (p0 : Char) (pat rep : List Char) :
    ∀ (f : Nat) (l : List Char), (∀ x ∈ l, ciEq p0 x = false) →
      replaceCiSeqAux (p0 :: pat) rep f l = l
  | 0, _, _ => rfl
  | _ + 1, [], _ => rfl
  | f + 1, c :: rest, h => by
    have hst : listStartsCi (p0 :: pat) (c :: rest) = false := by
      simp only [listStartsCi, h c (by simp), Bool.false_and]
    simp only [replaceCiSeqAux, hst, Bool.false_eq_true, if_false]
    rw [replaceCiSeqAux_id p0 pat rep f rest (fun x hx => h x (by simp [hx]))]

/-- A literal replace is the identity when some pattern character does not
occur in the text. -/
theorem replaceSeqAux_id_of_not_mem (pat rep : List Char) (q : Char) (hq : q ∈ pat) :
    ∀ (f : Nat) (l : List Char), q ∉ l → replaceSeqAux pat rep f l = l
  | 0, _, _ => rfl
  | _ + 1, [], _ => rfl
  | f + 1, c :: rest, h => by
    have hst : listStarts pat (c :: rest) = false := by
      cases hx : listStarts pat (c :: rest)
      · rfl
      · exact absurd (listStarts_subset pat (c :: rest) hx q hq) h
    simp only [replaceSeqAux, hst, Bool.false_eq_true, if_false]
    rw [replaceSeqAux_id_of_not_mem pat rep q hq f rest (fun hr => h (List.mem_cons_of_mem _ hr))]

/-- A literal replace whose pattern starts with '&' is the identity on
'&'-free text. -/
theorem replaceSeqAux_id_amp (pat rep : List Char) :
    ∀ (f : Nat) (l : List Char), '&' ∉ l → replaceSeqAux ('&' :: pat) rep f l = l
  | 0, _, _ => rfl
  | _ + 1, [], _ => rfl
  | f + 1, c :: rest, h => by
    simp only [List.mem_cons, not_or] at h
    have hst : listStarts ('&' :: pat) (c :: rest) = false := by
      simp only [listStarts]
      rw [show (('&' : Char) == c) = false from by simpa using h.1]
      rfl
    simp only [replaceSeqAux, hst, Bool.false_eq_true, if_false]
    rw [replaceSeqAux_id_amp pat rep f rest (by simpa using h.2)]

/-- A literal replace whose pattern starts with '&' leaves text alone when
it does not match at the head and the tail is '&'-free. -/
theorem replaceSeqAux_id_amp_head (pat rep : List Char) (c : Char) (rest : List Char) (f : Nat)
    (h0 : listStarts ('&' :: pat) (c :: rest) = false) (hr : '&' ∉ rest) :
    replaceSeqAux ('&' :: pat) rep (f + 1) (c :: rest) = c :: rest := by
  simp only [replaceSeqAux, h0, Bool.false_eq_true, if_false]
  rw [replaceSeqAux_id_amp pat rep f rest hr]

/-- The tag stripper is the identity on '<'-free text. -/
theorem removeTagsAux_id : ∀ (f : Nat) (l : List Char), '<' ∉ l → removeTagsAux f l = l
  | 0, _, _ => rfl
  | _ + 1, [], _ => rfl
  | f + 1, c :: rest, h => by
    simp only [List.mem_cons, not_or] at h
    have hc : ¬ c = '<' := fun he => h.1 he.symm
    simp only [removeTagsAux, if_neg hc]
    rw [removeTagsAux_id f rest (by simpa using h.2)]

/-- The hex-reference stage does nothing with no fuel left over, and on no
input. -/
theorem decodeHexRefsAux_nil (f : Nat) : decodeHexRefsAux f [] = [] := by
  cases f <;> rfl

/-- The decimal-reference stage on no input. -/
theorem decodeDecRefsAux_nil (f : Nat) : decodeDecRefsAux f [] = [] := by
  cases f <;> rfl

/-- The hex-reference stage is the identity on '&'-free text. -/
theorem decodeHexRefsAux_id : ∀ (f : Nat) (l : List Char), '&' ∉ l → decodeHexRefsAux f l = l
  | 0, _, _ => rfl
  | _ + 1, [], _ => rfl
  | f + 1, c :: rest, h => by
    simp only [List.mem_cons, not_or] at h
    have hc : ¬ c = '&' := fun he => h.1 he.symm
    simp only [decodeHexRefsAux, if_neg hc]
    rw [decodeHexRefsAux_id f rest (by simpa using h.2)]

/-- The decimal-reference stage is the identity on '&'-free text. -/
theorem decodeDecRefsAux_id : ∀ (f : Nat) (l : List Char), '&' ∉ l → decodeDecRefsAux f l = l
  | 0, _, _ => rfl
  | _ + 1, [], _ => rfl
  | f + 1, c :: rest, h => by
    simp only [List.mem_cons, not_or] at h
    have hc : ¬ c = '&' := fun he => h.1 he.symm
    simp only [decodeDecRefsAux, if_neg hc]
    rw [decodeDecRefsAux_id f rest (by simpa using h.2)]

/-- The newline collapser on no input. -/
theorem collapseNLAux_nil (f : Nat) : collapseNLAux f [] = [] := by
  cases f <;> rfl

/-- The newline collapser on a single character. -/
theorem collapseNLAux_single (c : Char) (f : Nat) : collapseNLAux (f + 1) [c] = [c] := by
  by_cases hc : c = '\n'
  · subst hc
    simp only [collapseNLAux]
    rw [if_pos trivial]
    simp only [List.takeWhile_nil, List.length_nil]
    rw [if_neg (by omega)]
    rw [collapseNLAux_nil]
  · simp only [collapseNLAux]
    rw [if_neg hc, collapseNLAux_nil]

/-- Trim on a single non-whitespace character. -/
theorem jsTrim_single (c : Char) (h : isJsWs c = false) : jsTrim [c] = [c] := by
  unfold jsTrim
  rw [List.dropWhile_cons_of_neg (by simp [h])]
  simp only [List.reverse_cons, List.reverse_nil, List.nil_append]
  rw [List.dropWhile_cons_of_neg (by simp [h])]
  rfl

/-- takeWhile stops exactly at the first failing element. -/
theorem takeWhile_append_of_all (p : Char → Bool) :
    ∀ (xs : List Char) (y : Char) (ys : List Char), (∀ x ∈ xs, p x = true) → p y = false →
      (xs ++ y :: ys).takeWhile p = xs
  | [], y, ys, _, hy => by
    simp [List.takeWhile_cons, hy]
  | x :: xs, y, ys, hall, hy => by
    simp only [List.cons_append, List.takeWhile_cons, hall x (by simp), if_true]
    rw [takeWhile_append_of_all p xs y ys (fun z hz => hall z (by simp [hz])) hy]

/-- The hex-reference scanner consumes one full reference. -/
theorem decodeHexRefsAux_step (digits tail : List Char) (f : Nat)
    (hne : digits ≠ []) (hall : ∀ c ∈ digits, isHexDigitChar c = true) :
    decodeHexRefsAux (f + 1) ('&' :: '#' :: 'x' :: (digits ++ ';' :: tail)) =
      jsFromCharCode (parseHexDigits digits) :: decodeHexRefsAux f tail := by
  have htake : (digits ++ ';' :: tail).takeWhile isHexDigitChar = digits :=
    takeWhile_append_of_all _ digits ';' tail hall (by decide)
  have hdrop : (digits ++ ';' :: tail).drop digits.length = ';' :: tail := List.drop_left _ _
  simp only [decodeHexRefsAux]
  rw [htake, if_pos trivial, hdrop]
  exact if_pos hne

/-- The decimal-reference scanner consumes one full reference. -/
theorem decodeDecRefsAux_step (digits tail : List Char) (f : Nat)
    (hne : digits ≠ []) (hall : ∀ c ∈ digits, c.isDigit = true) :
    decodeDecRefsAux (f + 1) ('&' :: '#' :: (digits ++ ';' :: tail)) =
      jsFromCharCode (parseDecDigits digits) :: decodeDecRefsAux f tail := by
  have htake : (digits ++ ';' :: tail).takeWhile Char.isDigit = digits :=
    takeWhile_append_of_all _ digits ';' tail hall (by decide)
  have hdrop : (digits ++ ';' :: tail).drop digits.length = ';' :: tail := List.drop_left _ _
  simp only [decodeDecRefsAux]
  rw [htake, if_pos trivial, hdrop]
  exact if_pos hne

/-- The decimal-reference stage on a single character. -/
theorem decodeDecRefsAux_single (c : Char) (f : Nat) : decodeDecRefsAux (f + 1) [c] = [c] := by
  by_cases hc : c = '&'
  · subst hc
    simp only [decodeDecRefsAux]
    rw [if_pos trivial]
    show ('&' : Char) :: decodeDecRefsAux f [] = ['&']
    rw [decodeDecRefsAux_nil]
  · simp only [decodeDecRefsAux]
    rw [if_neg hc, decodeDecRefsAux_nil]

/-- The hex-reference stage skips a decimal reference (no 'x') untouched. -/
theorem decodeHexRefsAux_skip_dec (d0 : Char) (t : List Char) (f : Nat)
    (hd0 : d0 ≠ 'x') (hrest : '&' ∉ '#' :: d0 :: t) :
    decodeHexRefsAux (f + 1) ('&' :: '#' :: d0 :: t) = '&' :: '#' :: d0 :: t := by
  simp only [decodeHexRefsAux]
  rw [if_pos trivial]
  split
  · rename_i heq
    rw [List.cons.injEq, List.cons.injEq] at heq
    exact absurd heq.2.1 hd0
  · rw [decodeHexRefsAux_id f _ hrest]

/-- Every hex-table digit passes the hex-digit class. -/
theorem hexTable_all_hex : ∀ c ∈ hexDigitTable, isHexDigitChar c = true := by decide

/-- Every decimal-table digit passes the digit class. -/
theorem decTable_all_digit : ∀ c ∈ decDigitTable, c.isDigit = true := by decide

/-- The hex-reference stage on a whole hexadecimal reference. -/
theorem decodeHexRefs_hexRef (n : Nat) :
    decodeHexRefs ('&' :: '#' :: 'x' :: (natToHexChars n ++ [';'])) = [jsFromCharCode n] := by
  unfold decodeHexRefs
  rw [show ('&' :: '#' :: 'x' :: (natToHexChars n ++ [';'])).length =
      ((natToHexChars n).length + 3) + 1 from by simp]
  rw [show natToHexChars n ++ [';'] = natToHexChars n ++ ';' :: [] from rfl]
  rw [decodeHexRefsAux_step (natToHexChars n) [] _ (natToHexChars_ne_nil n)
    (fun c hc => hexTable_all_hex c (natToHexChars_mem n c hc))]
  rw [parseHex_natToHexChars, decodeHexRefsAux_nil]

/-- The decimal-reference stage on a whole decimal reference. -/
theorem decodeDecRefs_decRef (n : Nat) :
    decodeDecRefs ('&' :: '#' :: (natToDecChars n ++ [';'])) = [jsFromCharCode n] := by
  unfold decodeDecRefs
  rw [show ('&' :: '#' :: (natToDecChars n ++ [';'])).length =
      ((natToDecChars n).length + 2) + 1 from by simp]
  rw [show natToDecChars n ++ [';'] = natToDecChars n ++ ';' :: [] from rfl]
  rw [decodeDecRefsAux_step (natToDecChars n) [] _ (natToDecChars_ne_nil n)
    (fun c hc => decTable_all_digit c (natToDecChars_mem n c hc))]
  rw [parseDec_natToDecChars, decodeDecRefsAux_nil]

/-- Case analysis of the characters of a hexadecimal reference string. -/
theorem mem_hexRef_cases (n : Nat) :
    ∀ x ∈ '&' :: '#' :: 'x' :: (natToHexChars n ++ [';']),
      x = '&' ∨ x = '#' ∨ x = 'x' ∨ x ∈ hexDigitTable ∨ x = ';' := by
  intro x hx
  simp only [List.mem_cons, List.mem_append, List.not_mem_nil, or_false] at hx
  rcases hx with rfl | rfl | rfl | hx | rfl
  · exact Or.inl rfl
  · exact Or.inr (Or.inl rfl)
  · exact Or.inr (Or.inr (Or.inl rfl))
  · exact Or.inr (Or.inr (Or.inr (Or.inl (natToHexChars_mem n x hx))))
  · exact Or.inr (Or.inr (Or.inr (Or.inr rfl)))

/-- Case analysis of the characters of a decimal reference string. -/
theorem mem_decRef_cases (n : Nat) :
    ∀ x ∈ '&' :: '#' :: (natToDecChars n ++ [';']),
      x = '&' ∨ x = '#' ∨ x ∈ decDigitTable ∨ x = ';' := by
  intro x hx
  simp only [List.mem_cons, List.mem_append, List.not_mem_nil, or_false] at hx
  rcases hx with rfl | rfl | hx | rfl
  · exact Or.inl rfl
  · exact Or.inr (Or.inl rfl)
  · exact Or.inr (Or.inr (Or.inl (natToDecChars_mem n x hx)))
  · exact Or.inr (Or.inr (Or.inr rfl))

/-- A character absent from all component sets is not in a hex reference. -/
theorem not_mem_hexRef (n : Nat) (q : Char) (h1 : q ≠ '&') (h2 : q ≠ '#') (h3 : q ≠ 'x')
    (h4 : q ∉ hexDigitTable) (h5 : q ≠ ';') :
    q ∉ '&' :: '#' :: 'x' :: (natToHexChars n ++ [';']) := by
  intro hq
  rcases mem_hexRef_cases n q hq with h | h | h | h | h
  · exact h1 h
  · exact h2 h
  · exact h3 h
  · exact h4 h
  · exact h5 h

/-- A character absent from all component sets is not in a decimal
reference. -/
theorem not_mem_decRef (n : Nat) (q : Char) (h1 : q ≠ '&') (h2 : q ≠ '#')
    (h4 : q ∉ decDigitTable) (h5 : q ≠ ';') :
    q ∉ '&' :: '#' :: (natToDecChars n ++ [';']) := by
  intro hq
  rcases mem_decRef_cases n q hq with h | h | h | h
  · exact h1 h
  · exact h2 h
  · exact h4 h
  · exact h5 h

/-- No character of a hex reference matches '<' case-insensitively. -/
theorem hexRef_no_lt_ci (n : Nat) :
    ∀ x ∈ '&' :: '#' :: 'x' :: (natToHexChars n ++ [';']), ciEq '<' x = false := by
  have htab : ∀ c ∈ hexDigitTable, ciEq '<' c = false := by decide
  intro x hx
  rcases mem_hexRef_cases n x hx with rfl | rfl | rfl | h | rfl
  · decide
  · decide
  · decide
  · exact htab x h
  · decide

/-- No character of a decimal reference matches '<' case-insensitively. -/
theorem decRef_no_lt_ci (n : Nat) :
    ∀ x ∈ '&' :: '#' :: (natToDecChars n ++ [';']), ciEq '<' x = false := by
  have htab : ∀ c ∈ decDigitTable, ciEq '<' c = false := by decide
  intro x hx
  rcases mem_decRef_cases n x hx with rfl | rfl | h | rfl
  · decide
  · decide
  · exact htab x h
  · decide

/-- The literal "&#39;" does not match at the head of a hex reference. -/
theorem listStarts_39_hex (t : List Char) :
    listStarts "&#39;".data ('&' :: '#' :: 'x' :: t) = false := by
  rw [show "&#39;".data = ['&', '#', '3', '9', ';'] from rfl]
  simp only [listStarts]
  rw [show (('&' : Char) == '&') = true from rfl, show (('#' : Char) == '#') = true from rfl,
    show (('3' : Char) == 'x') = false from rfl]
  rfl

/-- No decimal digit is a semicolon. -/
theorem decTable_ne_semi : ∀ c ∈ decDigitTable, ((';' : Char) == c) = false := by decide

/-- The literal "&#39;" does not match at the head of a decimal reference
whose digit string is not "39". -/
theorem listStarts_39_dec (digits : List Char) (hds : ∀ c ∈ digits, c ∈ decDigitTable)
    (hne : digits ≠ ['3', '9']) :
    listStarts "&#39;".data ('&' :: '#' :: (digits ++ [';'])) = false := by
  rw [show "&#39;".data = ['&', '#', '3', '9', ';'] from rfl]
  simp only [listStarts]
  rw [show (('&' : Char) == '&') = true from rfl, show (('#' : Char) == '#') = true from rfl]
  simp only [Bool.true_and]
  match digits, hne with
  | [], _ => rfl
  | [d0], _ =>
    show (('3' : Char) == d0 && (('9' : Char) == ';' && _)) = false
    rw [show (('9' : Char) == ';') = false from rfl]
    simp
  | [d0, d1], hne =>
    show (('3' : Char) == d0 && (('9' : Char) == d1 && ((';' : Char) == ';' && _))) = false
    cases h0 : ('3' : Char) == d0
    · simp
    · cases h1 : ('9' : Char) == d1
      · simp
      · exact absurd (by rw [← (beq_iff_eq.mp h0), ← (beq_iff_eq.mp h1)]) hne
  | d0 :: d1 :: d2 :: rest, _ =>
    show (('3' : Char) == d0 && (('9' : Char) == d1 && ((';' : Char) == d2 && _))) = false
    rw [decTable_ne_semi d2 (hds d2 (by simp))]
    simp

/-- Digits are not the letter x. -/
theorem decTable_ne_x : ∀ c ∈ decDigitTable, c ≠ 'x' := by decide

/-- stripHtml on a whole hexadecimal numeric character reference below
2^16: the pipeline leaves the reference alone until the hex stage decodes
it, and the remaining stages fix the single character. -/
theorem stripHtml_hexRef (n : Nat) (h1 : n < 0x10000) (h3 : isJsWs (Char.ofNat n) = false) :
    stripHtml (hexRefString n) = String.mk [Char.ofNat n] := by
  have hjs : jsFromCharCode n = Char.ofNat n := by
    unfold jsFromCharCode
    rw [Nat.mod_eq_of_lt h1]
  have hlt : '<' ∉ '&' :: '#' :: 'x' :: (natToHexChars n ++ [';']) :=
    not_mem_hexRef n '<' (by decide) (by decide) (by decide) (by decide) (by decide)
  have hamp_tail : '&' ∉ '#' :: 'x' :: (natToHexChars n ++ [';']) := by
    intro hq
    simp only [List.mem_cons, List.mem_append, List.not_mem_nil, or_false] at hq
    rcases hq with h | h | h | h
    · exact absurd h (by decide)
    · exact absurd h (by decide)
    · exact absurd (natToHexChars_mem n '&' h) (by decide)
    · exact absurd h (by decide)
  have hexp : stripHtml (hexRefString n) =
      (String.mk (jsTrim (collapseNL (decodeDecRefs (decodeHexRefs (replaceSeq "&#39;".data ['\''] (replaceSeq "&apos;".data ['\''] (replaceSeq "&quot;".data ['"'] (replaceSeq "&gt;".data ['>'] (replaceSeq "&lt;".data ['<'] (replaceSeq "&amp;".data ['&'] (replaceSeq "&nbsp;".data [' '] (removeTags (replaceCiSeq "</div>".data ['\n'] (replaceCiSeq "</p>".data ['\n', '\n'] (replaceBr (hexRefString n).data)))))))))))))))) := rfl
  rw [hexp]
  rw [show (hexRefString n).data = '&' :: '#' :: 'x' :: (natToHexChars n ++ [';']) from rfl]
  rw [show replaceBr ('&' :: '#' :: 'x' :: (natToHexChars n ++ [';'])) = '&' :: '#' :: 'x' :: (natToHexChars n ++ [';']) from replaceBrAux_id _ _ hlt]
  rw [show replaceCiSeq "</p>".data ['\n', '\n'] ('&' :: '#' :: 'x' :: (natToHexChars n ++ [';']))
      = '&' :: '#' :: 'x' :: (natToHexChars n ++ [';']) from
    replaceCiSeqAux_id '<' _ _ _ _ (hexRef_no_lt_ci n)]
  rw [show replaceCiSeq "</div>".data ['\n'] ('&' :: '#' :: 'x' :: (natToHexChars n ++ [';']))
      = '&' :: '#' :: 'x' :: (natToHexChars n ++ [';']) from
    replaceCiSeqAux_id '<' _ _ _ _ (hexRef_no_lt_ci n)]
  rw [show removeTags ('&' :: '#' :: 'x' :: (natToHexChars n ++ [';'])) = '&' :: '#' :: 'x' :: (natToHexChars n ++ [';']) from removeTagsAux_id _ _ hlt]
  rw [show replaceSeq "&nbsp;".data [' '] ('&' :: '#' :: 'x' :: (natToHexChars n ++ [';'])) = '&' :: '#' :: 'x' :: (natToHexChars n ++ [';']) from
    replaceSeqAux_id_of_not_mem "&nbsp;".data [' '] 'n' (by decide) _ _
      (not_mem_hexRef n 'n' (by decide) (by decide) (by decide) (by decide) (by decide))]
  rw [show replaceSeq "&amp;".data ['&'] ('&' :: '#' :: 'x' :: (natToHexChars n ++ [';'])) = '&' :: '#' :: 'x' :: (natToHexChars n ++ [';']) from
    replaceSeqAux_id_of_not_mem "&amp;".data ['&'] 'm' (by decide) _ _
      (not_mem_hexRef n 'm' (by decide) (by decide) (by decide) (by decide) (by decide))]
  rw [show replaceSeq "&lt;".data ['<'] ('&' :: '#' :: 'x' :: (natToHexChars n ++ [';'])) = '&' :: '#' :: 'x' :: (natToHexChars n ++ [';']) from
    replaceSeqAux_id_of_not_mem "&lt;".data ['<'] 'l' (by decide) _ _
      (not_mem_hexRef n 'l' (by decide) (by decide) (by decide) (by decide) (by decide))]
  rw [show replaceSeq "&gt;".data ['>'] ('&' :: '#' :: 'x' :: (natToHexChars n ++ [';'])) = '&' :: '#' :: 'x' :: (natToHexChars n ++ [';']) from
    replaceSeqAux_id_of_not_mem "&gt;".data ['>'] 'g' (by decide) _ _
      (not_mem_hexRef n 'g' (by decide) (by decide) (by decide) (by decide) (by decide))]
  rw [show replaceSeq "&quot;".data ['"'] ('&' :: '#' :: 'x' :: (natToHexChars n ++ [';'])) = '&' :: '#' :: 'x' :: (natToHexChars n ++ [';']) from
    replaceSeqAux_id_of_not_mem "&quot;".data ['"'] 'q' (by decide) _ _
      (not_mem_hexRef n 'q' (by decide) (by decide) (by decide) (by decide) (by decide))]
  rw [show replaceSeq "&apos;".data ['\''] ('&' :: '#' :: 'x' :: (natToHexChars n ++ [';'])) = '&' :: '#' :: 'x' :: (natToHexChars n ++ [';']) from
    replaceSeqAux_id_of_not_mem "&apos;".data ['\''] 'p' (by decide) _ _
      (not_mem_hexRef n 'p' (by decide) (by decide) (by decide) (by decide) (by decide))]
  rw [show replaceSeq "&#39;".data ['\''] ('&' :: '#' :: 'x' :: (natToHexChars n ++ [';']))
      = '&' :: '#' :: 'x' :: (natToHexChars n ++ [';']) from
    replaceSeqAux_id_amp_head _ _ '&' _ _ (listStarts_39_hex _) hamp_tail]
  rw [decodeHexRefs_hexRef n, hjs]
  rw [show decodeDecRefs [Char.ofNat n] = [Char.ofNat n] from decodeDecRefsAux_single _ 0]
  rw [show collapseNL [Char.ofNat n] = [Char.ofNat n] from collapseNLAux_single _ 0]
  rw [jsTrim_single _ h3]

/-- stripHtml on a whole decimal numeric character reference below 2^16,
other than 39 (which the earlier literal "&#39;" replace handles with the
same result). -/
theorem stripHtml_decRef (n : Nat) (h1 : n < 0x10000) (h3 : isJsWs (Char.ofNat n) = false)
    (h39 : n ≠ 39) :
    stripHtml (decRefString n) = String.mk [Char.ofNat n] := by
  have hjs : jsFromCharCode n = Char.ofNat n := by
    unfold jsFromCharCode
    rw [Nat.mod_eq_of_lt h1]
  have hlt : '<' ∉ '&' :: '#' :: (natToDecChars n ++ [';']) :=
    not_mem_decRef n '<' (by decide) (by decide) (by decide) (by decide)
  have hamp_tail : '&' ∉ '#' :: (natToDecChars n ++ [';']) := by
    intro hq
    simp only [List.mem_cons, List.mem_append, List.not_mem_nil, or_false] at hq
    rcases hq with h | h | h
    · exact absurd h (by decide)
    · exact absurd (natToDecChars_mem n '&' h) (by decide)
    · exact absurd h (by decide)
  have hnot39 : natToDecChars n ≠ ['3', '9'] := by
    intro he
    apply h39
    have hp := parseDec_natToDecChars n
    rw [he] at hp
    rw [← hp]
    rfl
  have hexp : stripHtml (decRefString n) =
      (String.mk (jsTrim (collapseNL (decodeDecRefs (decodeHexRefs (replaceSeq "&#39;".data ['\''] (replaceSeq "&apos;".data ['\''] (replaceSeq "&quot;".data ['"'] (replaceSeq "&gt;".data ['>'] (replaceSeq "&lt;".data ['<'] (replaceSeq "&amp;".data ['&'] (replaceSeq "&nbsp;".data [' '] (removeTags (replaceCiSeq "</div>".data ['\n'] (replaceCiSeq "</p>".data ['\n', '\n'] (replaceBr (decRefString n).data)))))))))))))))) := rfl
  rw [hexp]
  rw [show (decRefString n).data = '&' :: '#' :: (natToDecChars n ++ [';']) from rfl]
  rw [show replaceBr ('&' :: '#' :: (natToDecChars n ++ [';']))
      = '&' :: '#' :: (natToDecChars n ++ [';']) from replaceBrAux_id _ _ hlt]
  rw [show replaceCiSeq "</p>".data ['\n', '\n'] ('&' :: '#' :: (natToDecChars n ++ [';']))
      = '&' :: '#' :: (natToDecChars n ++ [';']) from
    replaceCiSeqAux_id '<' _ _ _ _ (decRef_no_lt_ci n)]
  rw [show replaceCiSeq "</div>".data ['\n'] ('&' :: '#' :: (natToDecChars n ++ [';']))
      = '&' :: '#' :: (natToDecChars n ++ [';']) from
    replaceCiSeqAux_id '<' _ _ _ _ (decRef_no_lt_ci n)]
  rw [show removeTags ('&' :: '#' :: (natToDecChars n ++ [';']))
      = '&' :: '#' :: (natToDecChars n ++ [';']) from removeTagsAux_id _ _ hlt]
  rw [show replaceSeq "&nbsp;".data [' '] ('&' :: '#' :: (natToDecChars n ++ [';']))
      = '&' :: '#' :: (natToDecChars n ++ [';']) from
    replaceSeqAux_id_of_not_mem "&nbsp;".data [' '] 'n' (by decide) _ _
      (not_mem_decRef n 'n' (by decide) (by decide) (by decide) (by decide))]
  rw [show replaceSeq "&amp;".data ['&'] ('&' :: '#' :: (natToDecChars n ++ [';']))
      = '&' :: '#' :: (natToDecChars n ++ [';']) from
    replaceSeqAux_id_of_not_mem "&amp;".data ['&'] 'm' (by decide) _ _
      (not_mem_decRef n 'm' (by decide) (by decide) (by decide) (by decide))]
  rw [show replaceSeq "&lt;".data ['<'] ('&' :: '#' :: (natToDecChars n ++ [';']))
      = '&' :: '#' :: (natToDecChars n ++ [';']) from
    replaceSeqAux_id_of_not_mem "&lt;".data ['<'] 'l' (by decide) _ _
      (not_mem_decRef n 'l' (by decide) (by decide) (by decide) (by decide))]
  rw [show replaceSeq "&gt;".data ['>'] ('&' :: '#' :: (natToDecChars n ++ [';']))
      = '&' :: '#' :: (natToDecChars n ++ [';']) from
    replaceSeqAux_id_of_not_mem "&gt;".data ['>'] 'g' (by decide) _ _
      (not_mem_decRef n 'g' (by decide) (by decide) (by decide) (by decide))]
  rw [show replaceSeq "&quot;".data ['"'] ('&' :: '#' :: (natToDecChars n ++ [';']))
      = '&' :: '#' :: (natToDecChars n ++ [';']) from
    replaceSeqAux_id_of_not_mem "&quot;".data ['"'] 'q' (by decide) _ _
      (not_mem_decRef n 'q' (by decide) (by decide) (by decide) (by decide))]
  rw [show replaceSeq "&apos;".data ['\''] ('&' :: '#' :: (natToDecChars n ++ [';']))
      = '&' :: '#' :: (natToDecChars n ++ [';']) from
    replaceSeqAux_id_of_not_mem "&apos;".data ['\''] 'p' (by decide) _ _
      (not_mem_decRef n 'p' (by decide) (by decide) (by decide) (by decide))]
  rw [show replaceSeq "&#39;".data ['\''] ('&' :: '#' :: (natToDecChars n ++ [';']))
      = '&' :: '#' :: (natToDecChars n ++ [';']) from
    replaceSeqAux_id_amp_head _ _ '&' _ _
      (listStarts_39_dec (natToDecChars n) (natToDecChars_mem n) hnot39) hamp_tail]
  rcases List.exists_cons_of_ne_nil (natToDecChars_ne_nil n) with ⟨d0, ds, hds⟩
  have hskip : decodeHexRefs ('&' :: '#' :: (natToDecChars n ++ [';']))
      = '&' :: '#' :: (natToDecChars n ++ [';']) := by
    rw [hds]
    unfold decodeHexRefs
    rw [show ('&' :: '#' :: (d0 :: ds ++ [';'])).length = ((d0 :: ds ++ [';']).length + 1) + 1
      from by simp]
    rw [show ('&' :: '#' :: (d0 :: ds ++ [';'])) = '&' :: '#' :: d0 :: (ds ++ [';']) from rfl]
    exact decodeHexRefsAux_skip_dec d0 (ds ++ [';']) _
      (decTable_ne_x d0 (natToDecChars_mem n d0 (by rw [hds]; simp)))
      (by rw [← List.cons_append, ← hds]; exact hamp_tail)
  rw [hskip, decodeDecRefs_decRef n, hjs]
  rw [show collapseNL [Char.ofNat n] = [Char.ofNat n] from collapseNLAux_single _ 0]
  rw [jsTrim_single _ h3]

/-- C6 counterexample: the code decodes references through
String.fromCharCode, which truncates to a UTF-16 code unit, so the
reference for U+1F600 yields U+F600, not the character of code point
0x1F600 the claim requires. -/
theorem stripHtml_astral_ref_counterexample :
    stripHtml "&#x1F600;" = String.mk [Char.ofNat 0xF600] ∧
      String.mk [Char.ofNat 0xF600] ≠ String.mk [Char.ofNat 0x1F600] := by
  constructor
  · decide
  · decide

/-- C6 amended: stripHtml decodes hexadecimal and decimal numeric character
references with String.fromCharCode semantics, i.e. to the character of the
code point reduced modulo 2^16; for scalar code points below 2^16 whose
character the final JavaScript trim keeps, that is exactly the character of
the code point, while a reference to a trimmed-whitespace code point such
as U+00A0 yields the empty string and the reference for U+1F600 yields the
truncated U+F600. The concrete example of the claim holds. -/
theorem stripHtml_numeric_refs_truncated (n : Nat) (h1 : n < 0x10000) (h2 : Nat.isValidChar n)
    (h3 : isJsWs (Char.ofNat n) = false) :
    stripHtml (hexRefString n) = String.mk [Char.ofNat n] ∧
    stripHtml (decRefString n) = String.mk [Char.ofNat n] ∧
    stripHtml "A &amp; B &lt;tag&gt; &#65;" = "A & B <tag> A" ∧
    stripHtml (hexRefString 0xA0) = "" ∧
    stripHtml "&#x1F600;" = String.mk [Char.ofNat 0xF600] := by
  refine ⟨stripHtml_hexRef n h1 h3, ?_, by decide, by decide, by decide⟩
  by_cases h39 : n = 39
  · subst h39
    decide
  · exact stripHtml_decRef n h1 h3 h39

/-- Witness for C6's amended theorem at code point 65. -/
theorem stripHtml_numeric_refs_truncated_witness :
    stripHtml (hexRefString 65) = String.mk [Char.ofNat 65] ∧
    stripHtml (decRefString 65) = String.mk [Char.ofNat 65] ∧
    stripHtml "A &amp; B &lt;tag&gt; &#65;" = "A & B <tag> A" ∧
    stripHtml (hexRefString 0xA0) = "" ∧
    stripHtml "&#x1F600;" = String.mk [Char.ofNat 0xF600] :=
  stripHtml_numeric_refs_truncated 65 (by decide) (by decide) (by decide)
